import Mathlib

/-!
# dtoo: the scrape engine of `scrape.go`

A shallow embedding of `Scrape`, `extract`, `extractString`,
`extractRetrieverModel` and `extractDataModel`, followed by theorems about them.

Conventions of the embedding

* goquery and `html.UnescapeString` are outside the package: they are the fields of
  a `Dom σ` record, `σ` being the type of `*goquery.Selection` values.
* A Go function returning `(interface{}, error)` returns a pair
  `Value σ × Option GoError`; both components are kept, because the source returns
  both (`return result, theError`).
* `interface{}` is the type `Value σ`; data models and extracted results are both
  values of it, exactly as in the source.
* `Model` (a Go map) is an association list. Go leaves the iteration order of a map
  unspecified: the order of the list is the order in which `range` visits the
  entries.
* Custom extractors are total functions of the selection they are given.
* `c` and `limit` are `uint` in the source and natural numbers here: `c` counts the
  nodes visited so far, which is bounded by `len` of the matched node slice (an
  `int`), so `c++` never wraps.
-/

namespace Dtoo

/-- A Go `error` value, identified by its message. -/
structure GoError where
  msg : String
deriving DecidableEq, Repr

/-- The constant `EMPTYSTRING`. -/
def EMPTYSTRING : String := ""

/-- `ScrapeObject`: the settings of a recursive scrape (`V` is `interface{}`). -/
structure ScrapeObject (V : Type) where
  Iterator : String
  Data : V

/-- `RetrieverModel`, with the fields of the source in the order of the source. -/
structure RetrieverModel (V : Type) where
  Attr : String
  Sel : String
  Method : V
  Scrape : ScrapeObject V
  DefaultValue : V

/-- Dynamic values (`interface{}`): the untyped `nil`, a `string`, a
`func (s *goquery.Selection) (interface{}, error)` (given by the value and the error it
returns on each selection), a `RetrieverModel`, a `Model`, a `[]interface{}`, and a
value of any other dynamic type (an `int`, a `*RetrieverModel`, a `[]string`, ...). -/
inductive Value (σ : Type) : Type
  | nil
  | str (s : String)
  | func (val : σ → Value σ) (err : σ → Option GoError)
  | retriever (rm : RetrieverModel (Value σ))
  | model (m : List (String × Value σ))
  | slice (xs : List (Value σ))
  | other (descr : String)

/-- `Model`: `map[string]interface{}`, entries in visiting order. -/
abbrev Model (σ : Type) := List (String × Value σ)

/-- The `(interface{}, error)` pair returned by the extraction functions. -/
abbrev Res (σ : Type) := Value σ × Option GoError

/-- The operations of goquery (and `html.UnescapeString`) that the package calls.
`Each s` lists the single-node selections that `s.EachWithBreak` hands to its
callback, in document order; `Attr` is `some v` when the attribute exists;
`Html` returns its string together with its error. -/
structure Dom (σ : Type) where
  Find : σ → String → σ
  Each : σ → List σ
  Attr : σ → String → Option String
  Text : σ → String
  Html : σ → String × Option GoError
  UnescapeString : String → String

/-- The map assignment `data[key] = v`. -/
def Model.set {σ : Type} : Model σ → String → Value σ → Model σ
  | [], key, v => [(key, v)]
  | (k, w) :: rest, key, v =>
      if k = key then (key, v) :: rest else (k, w) :: Model.set rest key v

/-- The map lookup `data[key]` (with its `exists` flag as the option). -/
def Model.get {σ : Type} : Model σ → String → Option (Value σ)
  | [], _ => none
  | (k, w) :: rest, key => if k = key then some w else Model.get rest key

/-- The comparison `v == EMPTYSTRING` of an `interface{}` with the string constant:
true only for a dynamic `string` that is empty. -/
def Value.isEmptyString {σ : Type} : Value σ → Bool
  | .str s => s == EMPTYSTRING
  | _ => false

/-- `goquery.Selection.EachWithBreak`: calls `f` on each element in order and stops
as soon as `f` returns `false`. The state `st` stands for the variables the closure
captures. -/
def EachWithBreak {α st : Type} (f : α → st → st × Bool) : List α → st → st
  | [], acc => acc
  | n :: rest, acc =>
      let r := f n acc
      if r.2 then EachWithBreak f rest r.1 else r.1

/-- The variables of `Scrape` that its callback updates: `c`, `result`, `theError`.
`evaluated` is a ghost variable: the selections `extract` was called on so far. -/
structure ScrapeState (σ : Type) where
  c : Nat
  result : List (Value σ)
  theError : Option GoError
  evaluated : List σ

/-- The state before the loop: `c := uint(0)`, `result := make([]interface{}, 1)`
(one `nil` element), `theError = nil`. -/
def ScrapeState.init {σ : Type} : ScrapeState σ :=
  { c := 0, result := [Value.nil], theError := none, evaluated := [] }

/-- The callback `Scrape` passes to `EachWithBreak`; `ex` is `extract(model, ·)`. -/
def scrapeCallback {σ : Type} (ex : σ → Res σ) (limit : Nat) (s : σ)
    (st : ScrapeState σ) : ScrapeState σ × Bool :=
  let r := ex s
  let st1 : ScrapeState σ :=
    match r.2 with
    | none =>
        if st.c ≥ st.result.length then
          { st with result := st.result ++ [r.1] }
        else
          { st with result := st.result.set st.c r.1 }
    | some err => { st with theError := some err }
  let st2 : ScrapeState σ := { st1 with c := st1.c + 1, evaluated := st.evaluated ++ [s] }
  (st2, !(st2.c == limit || st2.theError.isSome))

/-- The body of `Scrape` for a given `extract(model, ·)`: the final loop state. -/
def ScrapeWith {σ : Type} (d : Dom σ) (ex : σ → Res σ) (iterator : String) (s : σ)
    (limit : Nat) : ScrapeState σ :=
  EachWithBreak (scrapeCallback ex limit) (d.Each (d.Find s iterator)) ScrapeState.init

/-- `extractString`. -/
def extractString {σ : Type} (d : Dom σ) (model : String) (s : σ) : String × Option GoError :=
  if model = "text" then (d.UnescapeString (d.Text s), none)
  else if model = "html" then d.Html s
  else
    match d.Attr s model with
    | some attrValue => (attrValue, none)
    | none => (EMPTYSTRING, none)

mutual
/-- `extract`: the type switch on the model. -/
def extract {σ : Type} (d : Dom σ) : Value σ → σ → Res σ
  | .str modelValue, s =>
      let r := extractString d modelValue s
      (.str r.1, r.2)
  | .retriever rm, s => extractRetrieverModel d rm s
  | .model modelValue, s =>
      let r := extractDataModelLoop d modelValue s []
      (.model r.1, r.2)
  | .func val err, s => (val s, err s)
  | _, _ => (.nil, some ⟨"Unsupported retriever type"⟩)
/-- `extractRetrieverModel`. The recursive scrape is `Scrape(rm.Scrape.Iterator,
rm.Scrape.Data, s, 0)`, whose `[]interface{}` is returned as an `interface{}`. -/
def extractRetrieverModel {σ : Type} (d : Dom σ) : RetrieverModel (Value σ) → σ → Res σ
  | ⟨Attr, Sel, Method, ⟨Iterator, Data⟩, DefaultValue⟩, s0 =>
      let s := if Sel ≠ EMPTYSTRING then d.Find s0 Sel else s0
      if Attr ≠ EMPTYSTRING then
        match d.Attr s Attr with
        | some attrValue => (.str attrValue, none)
        | none => (DefaultValue, none)
      else
        match Method with
        | .nil =>
            if Iterator ≠ EMPTYSTRING ∧ Data.isEmptyString = false then
              let st := ScrapeWith d (fun n => extract d Data n) Iterator s 0
              (.slice st.result, st.theError)
            else (.nil, some ⟨"Empty RetrieverModel encountered"⟩)
        | .str method =>
            if method = "text" then (.str (d.UnescapeString (d.Text s)), none)
            else if method = "html" then
              let r := d.Html s
              (.str r.1, r.2)
            else (.nil, some ⟨"Empty RetrieverModel encountered"⟩)
        | .func val err => (val s, err s)
        | _ => (.nil, some ⟨"RetrieverModel: unrecognized 'method' type " ++ Sel⟩)
/-- The `range` loop of `extractDataModel`; `data` is the map built so far. The
assignment `data[key], err = extract(retriever, s)` happens before the test of
`err`. -/
def extractDataModelLoop {σ : Type} (d : Dom σ) :
    Model σ → σ → Model σ → Model σ × Option GoError
  | [], _, data => (data, none)
  | (key, retriever) :: rest, s, data =>
      let r := extract d retriever s
      match r.2 with
      | some err => (Model.set data key r.1, some err)
      | none => extractDataModelLoop d rest s (Model.set data key r.1)
end

/-- `extractDataModel`: starts the loop from `data = Model{}`. -/
def extractDataModel {σ : Type} (d : Dom σ) (model : Model σ) (s : σ) :
    Model σ × Option GoError :=
  extractDataModelLoop d model s []

/-- `Scrape`: returns `result, theError`. -/
def Scrape {σ : Type} (d : Dom σ) (iterator : String) (model : Value σ) (s : σ)
    (limit : Nat) : List (Value σ) × Option GoError :=
  let st := ScrapeWith d (extract d model) iterator s limit
  (st.result, st.theError)

/-- The selections `Scrape` called `extract` on, in the order of the calls. -/
def Scrape.evaluated {σ : Type} (d : Dom σ) (iterator : String) (model : Value σ) (s : σ)
    (limit : Nat) : List σ :=
  (ScrapeWith d (extract d model) iterator s limit).evaluated

/-- The selection a `RetrieverModel` works on: `s.Find(rm.Sel)` when `Sel` is set. -/
def subSelect {σ : Type} (d : Dom σ) (Sel : String) (s : σ) : σ :=
  if Sel ≠ EMPTYSTRING then d.Find s Sel else s

/-- A small document: a list holding the items 1, 2, 3 under the root 0. A selection
is the list of its nodes. -/
def sampleDom : Dom (List Nat) where
  Find s sel :=
    if sel = "li" then (if s = [0] then [1, 2, 3] else [])
    else if sel = "b" then s.filter (fun n => n == 2)
    else []
  Each s := s.map (fun n => [n])
  Attr s name :=
    match s with
    | [] => none
    | n :: _ =>
        if name = "id" then (if n = 1 then some "one" else if n = 2 then some "" else none)
        else none
  Text s := if s = [1] then "alpha" else if s = [3] then "gamma" else ""
  Html s := (if s = [1] then "<i>alpha</i>" else "", none)
  UnescapeString t := t

/-- A custom extractor that returns the text of the selection and fails on item 2. -/
def failsOnTwo : Value (List Nat) :=
  .func (fun s => .str (sampleDom.Text s))
    (fun s => if s = [2] then some ⟨"item 2 is broken"⟩ else none)

/-- The loop state of `Scrape` once the selections `done` have been visited with
`extract` succeeding on each of them. -/
def ScrapeState.afterAll {σ : Type} (ex : σ → Res σ) (done : List σ) : ScrapeState σ :=
  { c := done.length
    result := if done.isEmpty then [Value.nil] else done.map (fun n => (ex n).1)
    theError := none
    evaluated := done }

/-- The matches `Scrape` gets to when no extraction fails: all of them when
`limit = 0`, the first `limit` of them otherwise. -/
def processed {α : Type} (limit : Nat) (ms : List α) : List α :=
  if limit = 0 then ms else ms.take limit

/-- A custom extractor that fails on every selection, with the given message and a nil
value. -/
def failsWith (msg : String) : Value (List Nat) :=
  .func (fun _ => .nil) (fun _ => some ⟨msg⟩)

/-- Equality of two Go values up to the order in which the entries of their mappings
are listed: mappings are compared key by key, sequences index by index, and two
`RetrieverModel`s may differ in this way in their `Scrape.Data`. Between data models,
it relates the same model visited in two orders. -/
inductive Value.Same {σ : Type} : Value σ → Value σ → Prop
  | refl (v : Value σ) : Value.Same v v
  | model (m m' : Model σ) :
      (m.map Prod.fst).Nodup → (m'.map Prod.fst).Nodup →
      (∀ key, (Model.get m key).isSome = (Model.get m' key).isSome) →
      (∀ (key : String) (v v' : Value σ), Model.get m key = some v →
        Model.get m' key = some v' → Value.Same v v') →
      Value.Same (.model m) (.model m')
  | slice (xs ys : List (Value σ)) :
      xs.length = ys.length →
      (∀ (i : Nat) (x y : Value σ), xs[i]? = some x → ys[i]? = some y → Value.Same x y) →
      Value.Same (.slice xs) (.slice ys)
  | retriever (Attr Sel : String) (Method : Value σ) (Iterator : String)
      (Data Data' DefaultValue : Value σ) :
      Value.Same Data Data' →
      Value.Same (.retriever ⟨Attr, Sel, Method, ⟨Iterator, Data⟩, DefaultValue⟩)
        (.retriever ⟨Attr, Sel, Method, ⟨Iterator, Data'⟩, DefaultValue⟩)

mutual
/-- The nesting depth of a data model: the number of `Model`s and `RetrieverModel`s on
the longest path from the model down through `Model` fields and `Scrape.Data`. -/
def Value.depth {σ : Type} : Value σ → Nat
  | .retriever ⟨_, _, _, ⟨_, Data⟩, _⟩ => Value.depth Data + 1
  | .model m => fieldsDepth m + 1
  | _ => 0
/-- The largest nesting depth among the fields of a `Model`. -/
def fieldsDepth {σ : Type} : List (String × Value σ) → Nat
  | [] => 0
  | (_, v) :: rest => max (Value.depth v) (fieldsDepth rest)
end

/-- `EachWithBreak` with a callback that may not return (`none`). -/
def EachWithBreakD {α st : Type} (f : α → st → Option (st × Bool)) : List α → st → Option st
  | [], acc => some acc
  | n :: rest, acc =>
      match f n acc with
      | none => none
      | some r => if r.2 then EachWithBreakD f rest r.1 else some r.1

/-- The callback of `Scrape` when the call `extract(model, s)` may not return: with the
pair `r` it returns, the callback does what `scrapeCallback` does. -/
def scrapeCallbackD {σ : Type} (ex : σ → Option (Res σ)) (limit : Nat) (s : σ)
    (st : ScrapeState σ) : Option (ScrapeState σ × Bool) :=
  match ex s with
  | none => none
  | some r => some (scrapeCallback (fun _ => r) limit s st)

/-- The body of `Scrape` when the calls of `extract` may not return. -/
def ScrapeWithD {σ : Type} (d : Dom σ) (ex : σ → Option (Res σ)) (iterator : String) (s : σ)
    (limit : Nat) : Option (ScrapeState σ) :=
  EachWithBreakD (scrapeCallbackD ex limit) (d.Each (d.Find s iterator)) ScrapeState.init

/-- The loop of `extractDataModel` when the calls of `extract` may not return. -/
def extractDataModelLoopD {σ : Type} (ex : Value σ → σ → Option (Res σ)) :
    Model σ → σ → Model σ → Option (Model σ × Option GoError)
  | [], _, data => some (data, none)
  | (key, retriever) :: rest, s, data =>
      match ex retriever s with
      | none => none
      | some r =>
          match r.2 with
          | some err => some (Model.set data key r.1, some err)
          | none => extractDataModelLoopD ex rest s (Model.set data key r.1)

/-- `extractRetrieverModel` when the calls of `extract` made by the recursive scrape,
given as `ex`, may not return. -/
def extractRetrieverModelD {σ : Type} (d : Dom σ) (ex : Value σ → σ → Option (Res σ)) :
    RetrieverModel (Value σ) → σ → Option (Res σ)
  | ⟨Attr, Sel, Method, ⟨Iterator, Data⟩, DefaultValue⟩, s0 =>
      let s := if Sel ≠ EMPTYSTRING then d.Find s0 Sel else s0
      if Attr ≠ EMPTYSTRING then
        match d.Attr s Attr with
        | some attrValue => some (.str attrValue, none)
        | none => some (DefaultValue, none)
      else
        match Method with
        | .nil =>
            if Iterator ≠ EMPTYSTRING ∧ Data.isEmptyString = false then
              match ScrapeWithD d (ex Data) Iterator s 0 with
              | none => none
              | some st => some (.slice st.result, st.theError)
            else some (.nil, some ⟨"Empty RetrieverModel encountered"⟩)
        | .str method =>
            if method = "text" then some (.str (d.UnescapeString (d.Text s)), none)
            else if method = "html" then
              let r := d.Html s
              some (.str r.1, r.2)
            else some (.nil, some ⟨"Empty RetrieverModel encountered"⟩)
        | .func val err => some (val s, err s)
        | _ => some (.nil, some ⟨"RetrieverModel: unrecognized 'method' type " ++ Sel⟩)

/-- `extract` with a bound on the depth of the recursion: `fuel` is the number of nested
calls of `extract` that may be open at once, and the result is `none` when a call would
exceed it. The recursion is on `fuel` alone, not on the model. -/
def extractD {σ : Type} (d : Dom σ) : Nat → Value σ → σ → Option (Res σ)
  | 0, _, _ => none
  | fuel + 1, model, s =>
      match model with
      | .str modelValue =>
          let r := extractString d modelValue s
          some (.str r.1, r.2)
      | .retriever rm => extractRetrieverModelD d (extractD d fuel) rm s
      | .model modelValue =>
          match extractDataModelLoopD (extractD d fuel) modelValue s [] with
          | none => none
          | some r => some (.model r.1, r.2)
      | .func val err => some (val s, err s)
      | _ => some (.nil, some ⟨"Unsupported retriever type"⟩)

/-- `Scrape` with the same bound on the depth of the calls of `extract`. -/
def ScrapeD {σ : Type} (d : Dom σ) (fuel : Nat) (iterator : String) (model : Value σ) (s : σ)
    (limit : Nat) : Option (List (Value σ) × Option GoError) :=
  match ScrapeWithD d (extractD d fuel model) iterator s limit with
  | none => none
  | some st => some (st.result, st.theError)

/-! ## The loop of `Scrape` -/

/-- One iteration on a selection where extraction succeeds: the result is stored, the
loop goes on unless the counter reached `limit`. -/
theorem scrapeCallback_ok {σ : Type} (ex : σ → Res σ) (limit : Nat) (n : σ) (done : List σ)
    (h : (ex n).2 = none) :
    scrapeCallback ex limit n (ScrapeState.afterAll ex done)
      = (ScrapeState.afterAll ex (done ++ [n]), !(done.length + 1 == limit)) := by
  cases done with
  | nil => simp [scrapeCallback, ScrapeState.afterAll, h]
  | cons a t => simp [scrapeCallback, ScrapeState.afterAll, h]

/-- One iteration on a selection where extraction fails: `result` is left as it is,
`theError` is set and the loop is broken. -/
theorem scrapeCallback_err {σ : Type} (ex : σ → Res σ) (limit : Nat) (n : σ)
    (st : ScrapeState σ) (e : GoError) (h : (ex n).2 = some e) :
    scrapeCallback ex limit n st
      = ({ st with c := st.c + 1, theError := some e, evaluated := st.evaluated ++ [n] },
          false) := by
  simp [scrapeCallback, h]

/-- The loop runs through a run of successful matches that does not reach `limit`. -/
theorem loop_ok_prefix {σ : Type} (ex : σ → Res σ) (limit : Nat) :
    ∀ (pre rest done : List σ), (∀ n ∈ pre, (ex n).2 = none) →
      (limit = 0 ∨ done.length + pre.length < limit) →
      EachWithBreak (scrapeCallback ex limit) (pre ++ rest) (ScrapeState.afterAll ex done)
        = EachWithBreak (scrapeCallback ex limit) rest (ScrapeState.afterAll ex (done ++ pre)) := by
  intro pre
  induction pre with
  | nil => intro rest done _ _; simp
  | cons n t ih =>
      intro rest done hok hlim
      have hn : (ex n).2 = none := hok n (by simp)
      have hcont : (!(done.length + 1 == limit)) = true := by
        rcases hlim with h | h
        · simp [h]
        · simp at h ⊢; omega
      have hstep := ih rest (done ++ [n]) (fun m hm => hok m (by simp [hm]))
        (by rcases hlim with h | h
            · exact Or.inl h
            · right; simp at h ⊢; omega)
      simp only [List.cons_append, EachWithBreak, scrapeCallback_ok ex limit n done hn, hcont,
        if_true]
      simpa using hstep

/-- The loop on matches whose processed part extracts without error. -/
theorem loop_ok {σ : Type} (ex : σ → Res σ) (limit : Nat) :
    ∀ (ms done : List σ), (limit = 0 ∨ done.length < limit) →
      (∀ n ∈ (if limit = 0 then ms else ms.take (limit - done.length)), (ex n).2 = none) →
      EachWithBreak (scrapeCallback ex limit) ms (ScrapeState.afterAll ex done)
        = ScrapeState.afterAll ex
            (done ++ (if limit = 0 then ms else ms.take (limit - done.length))) := by
  intro ms
  induction ms with
  | nil => intro done _ _; simp [EachWithBreak]
  | cons n t ih =>
      intro done hlim hok
      have hn : (ex n).2 = none := by
        apply hok
        rcases hlim with h | h
        · simp [h]
        · have h1 : limit ≠ 0 := by omega
          have h2 : limit - done.length = (limit - done.length - 1) + 1 := by omega
          rw [if_neg h1, h2]
          simp
      simp only [EachWithBreak, scrapeCallback_ok ex limit n done hn]
      by_cases hc : done.length + 1 = limit
      · have h1 : limit ≠ 0 := by omega
        have h2 : limit - done.length = 1 := by omega
        simp [hc, h1, h2]
      · have hcont : (!(done.length + 1 == limit)) = true := by simp [hc]
        simp only [hcont, if_true]
        rcases hlim with h | h
        · have := ih (done ++ [n]) (Or.inl h) (by
            intro m hm
            apply hok
            simp [h] at hm ⊢
            exact Or.inr hm)
          simpa [h] using this
        · have h1 : limit ≠ 0 := by omega
          have h2 : limit - done.length = (limit - (done.length + 1)) + 1 := by omega
          have := ih (done ++ [n]) (Or.inr (by simp; omega)) (by
            intro m hm
            apply hok
            rw [if_neg h1] at hm ⊢
            rw [h2]
            simp at hm ⊢
            exact Or.inr hm)
          rw [if_neg h1] at this ⊢
          rw [h2]
          simpa using this

/-- From any state, the loop calls `extract` on the first `k` of the remaining matches,
and `k` does not take the counter past `limit`. -/
theorem loop_evaluated {σ : Type} (ex : σ → Res σ) (limit : Nat) :
    ∀ (ms : List σ) (st : ScrapeState σ),
      ∃ k, k ≤ ms.length ∧
        (EachWithBreak (scrapeCallback ex limit) ms st).evaluated = st.evaluated ++ ms.take k ∧
        (st.c < limit → st.c + k ≤ limit) := by
  intro ms
  induction ms with
  | nil => intro st; exact ⟨0, by simp [EachWithBreak], by simp [EachWithBreak], by omega⟩
  | cons n t ih =>
      intro st
      have hc : (scrapeCallback ex limit n st).1.c = st.c + 1 := by
        simp only [scrapeCallback]
        split <;> [split; skip] <;> rfl
      have he : (scrapeCallback ex limit n st).1.evaluated = st.evaluated ++ [n] := by
        simp [scrapeCallback]
      by_cases hcont : (scrapeCallback ex limit n st).2 = true
      · obtain ⟨k, hk, hev, hb⟩ := ih (scrapeCallback ex limit n st).1
        have hne : st.c + 1 ≠ limit := by
          intro h
          have : (scrapeCallback ex limit n st).2 = false := by
            simp only [scrapeCallback]
            split <;> [split; skip] <;> simp [h]
          rw [this] at hcont
          exact Bool.noConfusion hcont
        refine ⟨k + 1, by simp; omega, ?_, ?_⟩
        · simp only [EachWithBreak, hcont, if_true, hev, he]
          simp
        · intro h
          have := hb (by rw [hc]; omega)
          rw [hc] at this
          omega
      · refine ⟨1, by simp, ?_, by omega⟩
        simp only [EachWithBreak, hcont]
        simp [he]

/-- The final state of `Scrape` when no processed match fails. -/
theorem ScrapeWith_ok {σ : Type} (d : Dom σ) (ex : σ → Res σ) (iterator : String) (s : σ)
    (limit : Nat)
    (hok : ∀ n ∈ processed limit (d.Each (d.Find s iterator)), (ex n).2 = none) :
    ScrapeWith d ex iterator s limit
      = ScrapeState.afterAll ex (processed limit (d.Each (d.Find s iterator))) := by
  have h0 : (ScrapeState.init : ScrapeState σ) = ScrapeState.afterAll ex [] := by
    simp [ScrapeState.init, ScrapeState.afterAll]
  have hlim : limit = 0 ∨ ([] : List σ).length < limit := by
    rcases Nat.eq_zero_or_pos limit with h | h
    · exact Or.inl h
    · exact Or.inr (by simpa using h)
  have := loop_ok ex limit (d.Each (d.Find s iterator)) [] hlim (by simpa [processed] using hok)
  simpa [ScrapeWith, h0, processed] using this

/-- The final state of `Scrape` when the first failure is on a processed match. -/
theorem ScrapeWith_err {σ : Type} (d : Dom σ) (ex : σ → Res σ) (iterator : String) (s : σ)
    (limit : Nat) (pre post : List σ) (n : σ) (e : GoError)
    (hms : d.Each (d.Find s iterator) = pre ++ n :: post)
    (hpre : ∀ m ∈ pre, (ex m).2 = none) (hn : (ex n).2 = some e)
    (hlim : limit = 0 ∨ pre.length < limit) :
    ScrapeWith d ex iterator s limit
      = { ScrapeState.afterAll ex pre with
          c := pre.length + 1, theError := some e, evaluated := pre ++ [n] } := by
  have h0 : (ScrapeState.init : ScrapeState σ) = ScrapeState.afterAll ex [] := by
    simp [ScrapeState.init, ScrapeState.afterAll]
  have h1 := loop_ok_prefix ex limit pre (n :: post) [] hpre (by simpa using hlim)
  rw [ScrapeWith, hms, h0, h1]
  simp only [List.nil_append, EachWithBreak,
    scrapeCallback_err ex limit n (ScrapeState.afterAll ex pre) e hn]
  simp [ScrapeState.afterAll]

/-! ## `Scrape` -/

/-- C1 (at its failing input). On a root where the iterator matches no node (k = 0),
with limit 0, `Scrape` returns a sequence of one element, the `nil` that
`make([]interface{}, 1)` put there, and no error: its length is 1, not k = 0. -/
theorem Scrape_no_match_returns_one_nil :
    sampleDom.Each (sampleDom.Find [0] "p") = [] ∧
      Scrape sampleDom "p" (.str "text") [0] 0 = ([Value.nil], none) ∧
      (Scrape sampleDom "p" (.str "text") [0] 0).1.length = 1 := by
  refine ⟨by decide, rfl, by decide⟩

/-- C2. When extraction fails on none of the processed matches, the sequence returned
by `Scrape` has, at every index `i` below the number of processed matches, the value
extracted from the `i`-th match in document order, and it has as many elements as
matches were processed. -/
theorem Scrape_results_follow_match_order {σ : Type} (d : Dom σ) (iterator : String)
    (model : Value σ) (s : σ) (limit : Nat)
    (hok : ∀ n ∈ processed limit (d.Each (d.Find s iterator)), (extract d model n).2 = none)
    (i : Nat) (hi : i < (processed limit (d.Each (d.Find s iterator))).length) :
    (∃ n, (d.Each (d.Find s iterator))[i]? = some n ∧
        (Scrape d iterator model s limit).1[i]? = some (extract d model n).1) ∧
      (Scrape d iterator model s limit).1.length
        = (processed limit (d.Each (d.Find s iterator))).length := by
  have hne : processed limit (d.Each (d.Find s iterator)) ≠ [] := by
    intro h
    rw [h] at hi
    exact Nat.not_lt_zero _ hi
  have hres : (Scrape d iterator model s limit).1
      = (processed limit (d.Each (d.Find s iterator))).map (fun n => (extract d model n).1) := by
    simp [Scrape, ScrapeWith_ok d (extract d model) iterator s limit hok,
      ScrapeState.afterAll, hne]
  have hget : (d.Each (d.Find s iterator))[i]?
      = some ((processed limit (d.Each (d.Find s iterator)))[i]) := by
    unfold processed at hi ⊢
    split
    · rename_i h
      simp only [h, if_true] at hi
      exact List.getElem?_eq_getElem _
    · rename_i h
      simp only [h, if_false] at hi
      rw [List.getElem_take]
      exact List.getElem?_eq_getElem _
  refine ⟨⟨_, hget, ?_⟩, ?_⟩
  · rw [hres, List.getElem?_map, List.getElem?_eq_getElem hi]
    rfl
  · rw [hres, List.length_map]

/-- Witness of C2: the text model on the three items, limit 2, at index 1. -/
theorem Scrape_results_follow_match_order_witness :
    (∀ n ∈ processed 2 (sampleDom.Each (sampleDom.Find [0] "li")),
        (extract sampleDom (.str "text") n).2 = none) ∧
      1 < (processed 2 (sampleDom.Each (sampleDom.Find [0] "li"))).length ∧
      ((∃ n, (sampleDom.Each (sampleDom.Find [0] "li"))[1]? = some n ∧
          (Scrape sampleDom "li" (.str "text") [0] 2).1[1]?
            = some (extract sampleDom (.str "text") n).1) ∧
        (Scrape sampleDom "li" (.str "text") [0] 2).1.length
          = (processed 2 (sampleDom.Each (sampleDom.Find [0] "li"))).length) :=
  ⟨by decide, by decide,
    Scrape_results_follow_match_order sampleDom "li" (.str "text") [0] 2 (by decide) 1
      (by decide)⟩

/-- C3 as stated fails. On the three items, with an extractor that succeeds on item 1
and fails on item 2, `Scrape` returns the error together with the result of item 1:
the returned sequence is not empty. -/
theorem Scrape_error_with_nonempty_output :
    (Scrape sampleDom "li" failsOnTwo [0] 0).2 = some ⟨"item 2 is broken"⟩ ∧
      (Scrape sampleDom "li" failsOnTwo [0] 0).1 = [Value.str "alpha"] ∧
      (Scrape sampleDom "li" failsOnTwo [0] 0).1 ≠ [] := by
  refine ⟨by decide, rfl, ?_⟩
  intro h
  have : (Scrape sampleDom "li" failsOnTwo [0] 0).1.length = 0 := by rw [h]; rfl
  exact absurd this (by decide)

/-- C3, amended. If extraction fails on a match that `Scrape` gets to, and succeeds on
the matches before it, of which there is at least one, then `Scrape` returns that error
together with the results of the matches before the failing one, in match order. -/
theorem Scrape_error_keeps_accumulated_output {σ : Type} (d : Dom σ) (iterator : String)
    (model : Value σ) (s : σ) (limit : Nat) (pre post : List σ) (n : σ) (e : GoError)
    (hms : d.Each (d.Find s iterator) = pre ++ n :: post)
    (hne : pre ≠ [])
    (hpre : ∀ m ∈ pre, (extract d model m).2 = none)
    (hn : (extract d model n).2 = some e)
    (hlim : limit = 0 ∨ pre.length < limit) :
    Scrape d iterator model s limit
      = (pre.map (fun m => (extract d model m).1), some e) := by
  simp [Scrape, ScrapeWith_err d (extract d model) iterator s limit pre post n e hms hpre hn hlim,
    ScrapeState.afterAll, hne]

/-- Witness of the amended C3: item 1 succeeds, item 2 fails, item 3 is left. -/
theorem Scrape_error_keeps_accumulated_output_witness :
    sampleDom.Each (sampleDom.Find [0] "li") = [[1]] ++ [2] :: [[3]] ∧
      ([[1]] : List (List Nat)) ≠ [] ∧
      (∀ m ∈ ([[1]] : List (List Nat)), (extract sampleDom failsOnTwo m).2 = none) ∧
      (extract sampleDom failsOnTwo [2]).2 = some ⟨"item 2 is broken"⟩ ∧
      ((0 : Nat) = 0 ∨ ([[1]] : List (List Nat)).length < 0) ∧
      Scrape sampleDom "li" failsOnTwo [0] 0
        = (([[1]] : List (List Nat)).map (fun m => (extract sampleDom failsOnTwo m).1),
            some ⟨"item 2 is broken"⟩) :=
  ⟨by decide, by decide, by decide, by decide, by decide,
    Scrape_error_keeps_accumulated_output sampleDom "li" failsOnTwo [0] 0 [[1]] [[3]] [2]
      ⟨"item 2 is broken"⟩ (by decide) (by decide) (by decide) (by decide) (by decide)⟩

/-- C4. For every limit > 0 and every model, the selections on which `Scrape` calls
`extract` are the first `k` matches in document order, for some `k ≤ limit`. -/
theorem Scrape_evaluates_at_most_limit {σ : Type} (d : Dom σ) (iterator : String)
    (model : Value σ) (s : σ) (limit : Nat) (hlimit : 0 < limit) :
    ∃ k, k ≤ limit ∧
      Scrape.evaluated d iterator model s limit = (d.Each (d.Find s iterator)).take k := by
  obtain ⟨k, _, hev, hb⟩ :=
    loop_evaluated (extract d model) limit (d.Each (d.Find s iterator)) ScrapeState.init
  refine ⟨k, ?_, ?_⟩
  · have := hb (by simpa [ScrapeState.init] using hlimit)
    simpa [ScrapeState.init] using this
  · simpa [Scrape.evaluated, ScrapeWith, ScrapeState.init] using hev

/-- Witness of C4: limit 2 on the three items. -/
theorem Scrape_evaluates_at_most_limit_witness :
    0 < 2 ∧ ∃ k, k ≤ 2 ∧
      Scrape.evaluated sampleDom "li" (.str "text") [0] 2
        = (sampleDom.Each (sampleDom.Find [0] "li")).take k :=
  ⟨by decide, Scrape_evaluates_at_most_limit sampleDom "li" (.str "text") [0] 2 (by decide)⟩

/-- C5. If extraction fails on a match that `Scrape` gets to and succeeds on the matches
before it, the error `Scrape` returns is the error of that match, and `extract` is
called on the matches up to that one and on no match after it. -/
theorem Scrape_first_error_wins {σ : Type} (d : Dom σ) (iterator : String)
    (model : Value σ) (s : σ) (limit : Nat) (pre post : List σ) (n : σ) (e : GoError)
    (hms : d.Each (d.Find s iterator) = pre ++ n :: post)
    (hpre : ∀ m ∈ pre, (extract d model m).2 = none)
    (hn : (extract d model n).2 = some e)
    (hlim : limit = 0 ∨ pre.length < limit) :
    (Scrape d iterator model s limit).2 = some e ∧
      Scrape.evaluated d iterator model s limit = pre ++ [n] := by
  simp [Scrape, Scrape.evaluated,
    ScrapeWith_err d (extract d model) iterator s limit pre post n e hms hpre hn hlim]

/-- Witness of C5: limit 3, the failure is on the second of the three items. -/
theorem Scrape_first_error_wins_witness :
    sampleDom.Each (sampleDom.Find [0] "li") = [[1]] ++ [2] :: [[3]] ∧
      (∀ m ∈ ([[1]] : List (List Nat)), (extract sampleDom failsOnTwo m).2 = none) ∧
      (extract sampleDom failsOnTwo [2]).2 = some ⟨"item 2 is broken"⟩ ∧
      ((3 : Nat) = 0 ∨ ([[1]] : List (List Nat)).length < 3) ∧
      (Scrape sampleDom "li" failsOnTwo [0] 3).2 = some ⟨"item 2 is broken"⟩ ∧
      Scrape.evaluated sampleDom "li" failsOnTwo [0] 3 = [[1]] ++ [[2]] :=
  ⟨by decide, by decide, by decide, by decide,
    Scrape_first_error_wins sampleDom "li" failsOnTwo [0] 3 [[1]] [[3]] [2]
      ⟨"item 2 is broken"⟩ (by decide) (by decide) (by decide) (by decide)⟩

/-! ## `extractRetrieverModel` -/

/-- C6 (at its failing input). A `RetrieverModel` with `Attr` unset and `Method: "foo"`,
whatever its `Sel`, `Scrape` and `DefaultValue`, fails on every selection with the error
"Empty RetrieverModel encountered": the inner `switch method` has no case for the
string, control leaves the outer `switch` and reaches the last `return`. The error is
not the unrecognized-method error and does not name `Sel`. -/
theorem extractRetrieverModel_method_foo {σ : Type} (d : Dom σ) (Sel : String)
    (sc : ScrapeObject (Value σ)) (DefaultValue : Value σ) (s : σ) :
    extractRetrieverModel d ⟨EMPTYSTRING, Sel, .str "foo", sc, DefaultValue⟩ s
      = (.nil, some ⟨"Empty RetrieverModel encountered"⟩) := by
  cases sc
  simp [extractRetrieverModel]

/-- C7. With `Attr` set, `extractRetrieverModel` returns the value of that attribute of
the (sub-selected) selection when it exists and `DefaultValue` when it does not, and
in both cases the error is nil. -/
theorem extractRetrieverModel_attr {σ : Type} (d : Dom σ) (rm : RetrieverModel (Value σ))
    (s : σ) (hattr : rm.Attr ≠ EMPTYSTRING) :
    (∀ v, d.Attr (subSelect d rm.Sel s) rm.Attr = some v →
        extractRetrieverModel d rm s = (.str v, none)) ∧
      (d.Attr (subSelect d rm.Sel s) rm.Attr = none →
        extractRetrieverModel d rm s = (rm.DefaultValue, none)) ∧
      (extractRetrieverModel d rm s).2 = none := by
  obtain ⟨Attr, Sel, Method, ⟨Iterator, Data⟩, DefaultValue⟩ := rm
  simp only at hattr
  have key : extractRetrieverModel d ⟨Attr, Sel, Method, ⟨Iterator, Data⟩, DefaultValue⟩ s
      = (match d.Attr (subSelect d Sel s) Attr with
        | some attrValue => (Value.str attrValue, none)
        | none => (DefaultValue, none)) := by
    simp only [extractRetrieverModel, subSelect]
    rw [if_pos hattr]
  simp only [key]
  cases hv : d.Attr (subSelect d Sel s) Attr with
  | none => simp
  | some w => simp

/-- Witness of C7: `{Sel: "b", Attr: "id", DefaultValue: "fallback"}` on the items. -/
theorem extractRetrieverModel_attr_witness :
    ("id" : String) ≠ EMPTYSTRING ∧
      ((∀ v, sampleDom.Attr (subSelect sampleDom "b" [1, 2, 3]) "id" = some v →
          extractRetrieverModel sampleDom
            ⟨"id", "b", .nil, ⟨"", .nil⟩, .str "fallback"⟩ [1, 2, 3] = (.str v, none)) ∧
        (sampleDom.Attr (subSelect sampleDom "b" [1, 2, 3]) "id" = none →
          extractRetrieverModel sampleDom
            ⟨"id", "b", .nil, ⟨"", .nil⟩, .str "fallback"⟩ [1, 2, 3]
              = (.str "fallback", none)) ∧
        (extractRetrieverModel sampleDom
            ⟨"id", "b", .nil, ⟨"", .nil⟩, .str "fallback"⟩ [1, 2, 3]).2 = none) :=
  ⟨by decide,
    extractRetrieverModel_attr sampleDom ⟨"id", "b", .nil, ⟨"", .nil⟩, .str "fallback"⟩
      [1, 2, 3] (by decide)⟩

/-- C8 (at its failing inputs). With `DefaultValue: "Unknown Post"` set, a retrieved
value that is the empty string is returned as it is, both for `Method: "text"` on a
selection with empty text and for `Attr: "id"` on a selection whose `id` is empty:
`DefaultValue` is not returned. -/
theorem extractRetrieverModel_empty_value_not_defaulted :
    sampleDom.Text [2] = "" ∧
      extractRetrieverModel sampleDom
          ⟨"", "", .str "text", ⟨"", .nil⟩, .str "Unknown Post"⟩ [2] = (.str "", none) ∧
      sampleDom.Attr [2] "id" = some "" ∧
      extractRetrieverModel sampleDom
          ⟨"id", "", .nil, ⟨"", .nil⟩, .str "Unknown Post"⟩ [2] = (.str "", none) := by
  refine ⟨by decide, rfl, by decide, rfl⟩

/-- C9. With `Attr` unset, the result of `extractRetrieverModel` is the same for every
`DefaultValue`. -/
theorem extractRetrieverModel_default_unused {σ : Type} (d : Dom σ)
    (rm : RetrieverModel (Value σ)) (s : σ) (dv : Value σ)
    (hattr : rm.Attr = EMPTYSTRING) :
    extractRetrieverModel d { rm with DefaultValue := dv } s = extractRetrieverModel d rm s := by
  obtain ⟨Attr, Sel, Method, ⟨Iterator, Data⟩, DefaultValue⟩ := rm
  simp only at hattr
  subst hattr
  cases Method <;> simp [extractRetrieverModel]

/-- Witness of C9: `{Sel: "b", Method: "text"}` with two default values. -/
theorem extractRetrieverModel_default_unused_witness :
    ("" : String) = EMPTYSTRING ∧
      extractRetrieverModel sampleDom
          { ({ Attr := "", Sel := "b", Method := .str "text", Scrape := ⟨"", .nil⟩,
               DefaultValue := .nil } : RetrieverModel (Value (List Nat))) with
            DefaultValue := .str "Unknown Post" } [1, 2, 3]
        = extractRetrieverModel sampleDom
            { Attr := "", Sel := "b", Method := .str "text", Scrape := ⟨"", .nil⟩,
              DefaultValue := .nil } [1, 2, 3] :=
  ⟨rfl,
    extractRetrieverModel_default_unused sampleDom
      { Attr := "", Sel := "b", Method := .str "text", Scrape := ⟨"", .nil⟩,
        DefaultValue := .nil } [1, 2, 3] (.str "Unknown Post") rfl⟩

/-- C10. When `Attr` is set, the result of `extractRetrieverModel` is the same for
every `Method` and every `Scrape` (neither is used); when `Attr` is unset and `Method`
is not nil, the result is the same for every `Scrape` (the recursive scrape is not
run). -/
theorem extractRetrieverModel_precedence {σ : Type} (d : Dom σ)
    (rm : RetrieverModel (Value σ)) (s : σ) :
    (rm.Attr ≠ EMPTYSTRING → ∀ (m : Value σ) (sc : ScrapeObject (Value σ)),
        extractRetrieverModel d { rm with Method := m, Scrape := sc } s
          = extractRetrieverModel d rm s) ∧
      (rm.Attr = EMPTYSTRING → rm.Method ≠ Value.nil → ∀ sc : ScrapeObject (Value σ),
        extractRetrieverModel d { rm with Scrape := sc } s = extractRetrieverModel d rm s) := by
  obtain ⟨Attr, Sel, Method, ⟨Iterator, Data⟩, DefaultValue⟩ := rm
  refine ⟨?_, ?_⟩
  · intro hattr m sc
    obtain ⟨it, da⟩ := sc
    simp only at hattr
    simp [extractRetrieverModel, hattr]
  · intro hattr hm sc
    obtain ⟨it, da⟩ := sc
    simp only at hattr hm
    subst hattr
    cases Method <;> first | exact absurd rfl hm | simp [extractRetrieverModel]

/-- Witness of C10: an attribute retriever with and without `Method` and `Scrape`, and
a `Method: "text"` retriever with and without `Scrape`. -/
theorem extractRetrieverModel_precedence_witness :
    ("id" : String) ≠ EMPTYSTRING ∧
      extractRetrieverModel sampleDom
          ⟨"id", "b", .str "html", ⟨"li", .str "text"⟩, .str "fallback"⟩ [1, 2, 3]
        = extractRetrieverModel sampleDom
            ⟨"id", "b", .nil, ⟨"", .nil⟩, .str "fallback"⟩ [1, 2, 3] ∧
      ("" : String) = EMPTYSTRING ∧
      (Value.str "text" : Value (List Nat)) ≠ Value.nil ∧
      extractRetrieverModel sampleDom
          ⟨"", "b", .str "text", ⟨"li", .str "text"⟩, .nil⟩ [1, 2, 3]
        = extractRetrieverModel sampleDom
            ⟨"", "b", .str "text", ⟨"", .nil⟩, .nil⟩ [1, 2, 3] :=
  ⟨by decide,
    (extractRetrieverModel_precedence sampleDom
      ⟨"id", "b", .nil, ⟨"", .nil⟩, .str "fallback"⟩ [1, 2, 3]).1 (by decide)
      (.str "html") ⟨"li", .str "text"⟩,
    rfl, by simp,
    (extractRetrieverModel_precedence sampleDom
      ⟨"", "b", .str "text", ⟨"", .nil⟩, .nil⟩ [1, 2, 3]).2 rfl (by simp)
      ⟨"li", .str "text"⟩⟩

/-- C11. A `RetrieverModel` with `Attr` unset, `Method` nil, `Scrape.Iterator` not empty
and `Scrape.Data` not the empty string returns, on every selection `n`, the sequence
and the error of `Scrape(Iterator, Data, n', 0)`, `n'` being `n.Find(Sel)` when `Sel` is
set and `n` otherwise; this is what the custom extractor
`func(s) { return Scrape(Iterator, Data, s, 0) }` returns on `n'`. The limit of the
recursive scrape is the constant 0, whatever the limit of the enclosing scrape. -/
theorem extractRetrieverModel_nested_scrape {σ : Type} (d : Dom σ) (Sel Iterator : String)
    (Data DefaultValue : Value σ) (n : σ)
    (hI : Iterator ≠ EMPTYSTRING) (hD : Data.isEmptyString = false) :
    extractRetrieverModel d ⟨EMPTYSTRING, Sel, .nil, ⟨Iterator, Data⟩, DefaultValue⟩ n
        = (.slice (Scrape d Iterator Data (subSelect d Sel n) 0).1,
            (Scrape d Iterator Data (subSelect d Sel n) 0).2) ∧
      extractRetrieverModel d ⟨EMPTYSTRING, Sel, .nil, ⟨Iterator, Data⟩, DefaultValue⟩ n
        = extract d
            (.func (fun s => .slice (Scrape d Iterator Data s 0).1)
              (fun s => (Scrape d Iterator Data s 0).2))
            (subSelect d Sel n) := by
  have h : extractRetrieverModel d ⟨EMPTYSTRING, Sel, .nil, ⟨Iterator, Data⟩, DefaultValue⟩ n
      = (.slice (Scrape d Iterator Data (subSelect d Sel n) 0).1,
          (Scrape d Iterator Data (subSelect d Sel n) 0).2) := by
    simp only [extractRetrieverModel, Scrape, subSelect]
    simp [hI, hD]
  refine ⟨h, ?_⟩
  rw [h, extract]

/-- Witness of C11: `{Scrape: {Iterator: "li", Data: "text"}}` on the root. -/
theorem extractRetrieverModel_nested_scrape_witness :
    ("li" : String) ≠ EMPTYSTRING ∧
      (Value.str "text" : Value (List Nat)).isEmptyString = false ∧
      (extractRetrieverModel sampleDom ⟨EMPTYSTRING, "", .nil, ⟨"li", .str "text"⟩, .nil⟩ [0]
          = (.slice (Scrape sampleDom "li" (.str "text") (subSelect sampleDom "" [0]) 0).1,
              (Scrape sampleDom "li" (.str "text") (subSelect sampleDom "" [0]) 0).2) ∧
        extractRetrieverModel sampleDom ⟨EMPTYSTRING, "", .nil, ⟨"li", .str "text"⟩, .nil⟩ [0]
          = extract sampleDom
              (.func (fun s => .slice (Scrape sampleDom "li" (.str "text") s 0).1)
                (fun s => (Scrape sampleDom "li" (.str "text") s 0).2))
              (subSelect sampleDom "" [0])) :=
  ⟨by decide, by decide,
    extractRetrieverModel_nested_scrape sampleDom "" "li" (.str "text") .nil [0]
      (by decide) (by decide)⟩

/-- C12 (at its failing input). A `RetrieverModel` with only `Scrape.Iterator` set and
`Scrape.Data` left nil passes the test `rm.Scrape.Data != EMPTYSTRING` and runs the
recursive scrape with a nil model: where the iterator matches, it fails with
"Unsupported retriever type"; where it matches nothing, it succeeds with a one-element
sequence. Neither is the error "Empty RetrieverModel encountered", which the same
descriptor gives with `Data: ""`. -/
theorem extractRetrieverModel_nil_data_runs_scrape :
    extractRetrieverModel sampleDom ⟨"", "", .nil, ⟨"li", .nil⟩, .nil⟩ [0]
        = (.slice [Value.nil], some ⟨"Unsupported retriever type"⟩) ∧
      extractRetrieverModel sampleDom ⟨"", "", .nil, ⟨"p", .nil⟩, .nil⟩ [0]
        = (.slice [Value.nil], none) ∧
      extractRetrieverModel sampleDom ⟨"", "", .nil, ⟨"li", .str ""⟩, .nil⟩ [0]
        = (.nil, some ⟨"Empty RetrieverModel encountered"⟩) := by
  refine ⟨rfl, rfl, rfl⟩

/-- C13. A `RetrieverModel` with `Attr` empty, `Method` nil and `Scrape.Iterator` empty
fails with "Empty RetrieverModel encountered" and a nil value, on every selection and
for every `Sel`, `Scrape.Data` and `DefaultValue`. -/
theorem extractRetrieverModel_empty {σ : Type} (d : Dom σ) (Sel : String)
    (Data DefaultValue : Value σ) (s : σ) :
    extractRetrieverModel d ⟨EMPTYSTRING, Sel, .nil, ⟨EMPTYSTRING, Data⟩, DefaultValue⟩ s
      = (.nil, some ⟨"Empty RetrieverModel encountered"⟩) := by
  simp [extractRetrieverModel]

/-! ## `extract` on strings and on unsupported values -/

/-- C16. For a string model `a` other than "text" and "html", `extract` returns the
value of the attribute `a` when the selection has it and the empty string when it
has not, with a nil error in both cases; on a selection without the attribute, the
`RetrieverModel` that sets only `Attr: a` returns the value nil, and does so without
error when `a` is not empty. -/
theorem extract_attribute_shorthand {σ : Type} (d : Dom σ) (a : String) (n : σ)
    (htext : a ≠ "text") (hhtml : a ≠ "html") :
    (∀ v, d.Attr n a = some v → extract d (.str a) n = (.str v, none)) ∧
      (d.Attr n a = none →
        extract d (.str a) n = (.str EMPTYSTRING, none) ∧
          (extractRetrieverModel d ⟨a, "", .nil, ⟨"", .nil⟩, .nil⟩ n).1 = Value.nil ∧
          (a ≠ EMPTYSTRING →
            extractRetrieverModel d ⟨a, "", .nil, ⟨"", .nil⟩, .nil⟩ n = (.nil, none))) ∧
      (extract d (.str a) n).2 = none := by
  refine ⟨?_, ?_, ?_⟩
  · intro v hv
    simp [extract, extractString, htext, hhtml, hv]
  · intro hv
    refine ⟨by simp [extract, extractString, htext, hhtml, hv], ?_, ?_⟩
    · by_cases ha : a = ""
      · subst ha
        simp [extractRetrieverModel, EMPTYSTRING]
      · simp [extractRetrieverModel, ha, EMPTYSTRING, hv]
    · intro ha
      have ha2 : ¬ a = "" := ha
      simp [extractRetrieverModel, ha2, EMPTYSTRING, hv]
  · cases hv : d.Attr n a <;> simp [extract, extractString, htext, hhtml, hv]

/-- Witness of C16: the attribute "href", which item 1 does not have. -/
theorem extract_attribute_shorthand_witness :
    ("href" : String) ≠ "text" ∧ ("href" : String) ≠ "html" ∧
      ((∀ v, sampleDom.Attr [1] "href" = some v →
          extract sampleDom (.str "href") [1] = (.str v, none)) ∧
        (sampleDom.Attr [1] "href" = none →
          extract sampleDom (.str "href") [1] = (.str EMPTYSTRING, none) ∧
            (extractRetrieverModel sampleDom ⟨"href", "", .nil, ⟨"", .nil⟩, .nil⟩ [1]).1
              = Value.nil ∧
            (("href" : String) ≠ EMPTYSTRING →
              extractRetrieverModel sampleDom ⟨"href", "", .nil, ⟨"", .nil⟩, .nil⟩ [1]
                = (.nil, none))) ∧
        (extract sampleDom (.str "href") [1]).2 = none) :=
  ⟨by decide, by decide,
    extract_attribute_shorthand sampleDom "href" [1] (by decide) (by decide)⟩

/-- C17. With `Sel` set, `extractRetrieverModel` on `n` returns what the same
`RetrieverModel` with `Sel` cleared returns on `n.Find(Sel)`: the same value and the
same error on every path, except that for a `Method` of an unrecognized type both fail
with the unrecognized-method error, whose message ends with the `Sel` of each. -/
theorem extractRetrieverModel_sub_selection_first {σ : Type} (d : Dom σ)
    (rm : RetrieverModel (Value σ)) (n : σ) (hsel : rm.Sel ≠ EMPTYSTRING) :
    extractRetrieverModel d rm n
        = extractRetrieverModel d { rm with Sel := EMPTYSTRING } (d.Find n rm.Sel) ∨
      (extractRetrieverModel d rm n
          = (.nil, some ⟨"RetrieverModel: unrecognized 'method' type " ++ rm.Sel⟩) ∧
        extractRetrieverModel d { rm with Sel := EMPTYSTRING } (d.Find n rm.Sel)
          = (.nil, some ⟨"RetrieverModel: unrecognized 'method' type " ++ EMPTYSTRING⟩)) := by
  obtain ⟨Attr, Sel, Method, ⟨Iterator, Data⟩, DefaultValue⟩ := rm
  simp only at hsel
  by_cases hattr : Attr = EMPTYSTRING
  · subst hattr
    cases Method with
    | nil => left; simp [extractRetrieverModel, hsel]
    | str m => left; simp [extractRetrieverModel, hsel]
    | func v e => left; simp [extractRetrieverModel, hsel]
    | retriever r => right; simp [extractRetrieverModel]
    | model m => right; simp [extractRetrieverModel]
    | slice xs => right; simp [extractRetrieverModel]
    | other x => right; simp [extractRetrieverModel]
  · left
    simp [extractRetrieverModel, hsel, hattr]

/-- Witness of C17: `{Sel: "b", Method: "text"}` on the three items. -/
theorem extractRetrieverModel_sub_selection_first_witness :
    ("b" : String) ≠ EMPTYSTRING ∧
      (extractRetrieverModel sampleDom ⟨"", "b", .str "text", ⟨"", .nil⟩, .nil⟩ [1, 2, 3]
          = extractRetrieverModel sampleDom ⟨"", EMPTYSTRING, .str "text", ⟨"", .nil⟩, .nil⟩
              (sampleDom.Find [1, 2, 3] "b") ∨
        (extractRetrieverModel sampleDom ⟨"", "b", .str "text", ⟨"", .nil⟩, .nil⟩ [1, 2, 3]
            = (.nil, some ⟨"RetrieverModel: unrecognized 'method' type " ++ "b"⟩) ∧
          extractRetrieverModel sampleDom ⟨"", EMPTYSTRING, .str "text", ⟨"", .nil⟩, .nil⟩
              (sampleDom.Find [1, 2, 3] "b")
            = (.nil, some ⟨"RetrieverModel: unrecognized 'method' type " ++ EMPTYSTRING⟩))) :=
  ⟨by decide,
    extractRetrieverModel_sub_selection_first sampleDom
      ⟨"", "b", .str "text", ⟨"", .nil⟩, .nil⟩ [1, 2, 3] (by decide)⟩

/-- C18. On every selection, `extract` of a model that is not a string, a
`RetrieverModel`, a `Model` or an extractor function fails with "Unsupported retriever
type" and a nil value. -/
theorem extract_unsupported {σ : Type} (d : Dom σ) (model : Value σ) (s : σ)
    (hstr : ∀ m, model ≠ .str m) (hrm : ∀ rm, model ≠ .retriever rm)
    (hmodel : ∀ m, model ≠ .model m) (hfunc : ∀ val err, model ≠ .func val err) :
    extract d model s = (.nil, some ⟨"Unsupported retriever type"⟩) := by
  cases model with
  | nil => simp [extract]
  | str m => exact absurd rfl (hstr m)
  | func v e => exact absurd rfl (hfunc v e)
  | retriever r => exact absurd rfl (hrm r)
  | model m => exact absurd rfl (hmodel m)
  | slice xs => simp [extract]
  | other x => simp [extract]

/-- Witness of C18: an `int` given as the model. -/
theorem extract_unsupported_witness :
    (∀ m, (Value.other "int" : Value (List Nat)) ≠ .str m) ∧
      (∀ rm, (Value.other "int" : Value (List Nat)) ≠ .retriever rm) ∧
      (∀ m, (Value.other "int" : Value (List Nat)) ≠ .model m) ∧
      (∀ val err, (Value.other "int" : Value (List Nat)) ≠ .func val err) ∧
      extract sampleDom (.other "int") [1] = (.nil, some ⟨"Unsupported retriever type"⟩) :=
  ⟨by simp, by simp, by simp, by simp,
    extract_unsupported sampleDom (.other "int") [1] (by simp) (by simp) (by simp) (by simp)⟩

/-! ## `Model`: assignment and lookup -/

/-- Assigning a key the map does not hold adds the entry. -/
theorem Model.set_of_not_mem {σ : Type} (data : Model σ) (key : String) (v : Value σ)
    (h : key ∉ data.map Prod.fst) : Model.set data key v = data ++ [(key, v)] := by
  induction data with
  | nil => rfl
  | cons p t ih =>
      obtain ⟨k, w⟩ := p
      simp only [List.map_cons, List.mem_cons, not_or] at h
      have hk : ¬ k = key := fun hk => h.1 hk.symm
      simp [Model.set, hk, ih h.2]

/-- Lookup in a map whose values went through `f`. -/
theorem Model.get_map {σ : Type} (m : Model σ) (f : Value σ → Value σ) (key : String) :
    Model.get (m.map (fun p => (p.1, f p.2))) key = (Model.get m key).map f := by
  induction m with
  | nil => rfl
  | cons p t ih =>
      obtain ⟨k, w⟩ := p
      by_cases hk : k = key
      · simp [Model.get, hk]
      · simp [Model.get, hk, ih]

/-- With distinct keys, lookup finds exactly the entries of the map. -/
theorem Model.get_eq_some_iff {σ : Type} (m : Model σ) (hnodup : (m.map Prod.fst).Nodup)
    (key : String) (v : Value σ) : Model.get m key = some v ↔ (key, v) ∈ m := by
  induction m with
  | nil => simp [Model.get]
  | cons p t ih =>
      obtain ⟨k, w⟩ := p
      simp only [List.map_cons, List.nodup_cons] at hnodup
      by_cases hk : k = key
      · subst hk
        simp only [Model.get, if_true, Option.some.injEq, List.mem_cons, Prod.mk.injEq,
          true_and]
        constructor
        · intro h; exact Or.inl h.symm
        · rintro (h | h)
          · exact h.symm
          · exact absurd (List.mem_map_of_mem Prod.fst h) hnodup.1
      · simp only [Model.get, hk, if_false, List.mem_cons, Prod.mk.injEq]
        rw [ih hnodup.2]
        constructor
        · intro h; exact Or.inr h
        · rintro (h | h)
          · exact absurd h.1.symm hk
          · exact h

/-- With distinct keys, lookup does not depend on the order of the entries. -/
theorem Model.get_perm {σ : Type} (m m' : Model σ) (hperm : m'.Perm m)
    (hnodup : (m.map Prod.fst).Nodup) (key : String) :
    Model.get m' key = Model.get m key := by
  have hnodup' : (m'.map Prod.fst).Nodup := (hperm.map Prod.fst).nodup_iff.mpr hnodup
  apply Option.ext
  intro v
  simp only [Option.mem_def]
  rw [Model.get_eq_some_iff m' hnodup', Model.get_eq_some_iff m hnodup]
  exact hperm.mem_iff

/-! ## The loop of `extractDataModel` -/

/-- When every field extracts without error, the loop adds one entry per field, in
visiting order. -/
theorem extractDataModelLoop_ok {σ : Type} (d : Dom σ) (s : σ) :
    ∀ (m data : Model σ), (∀ p ∈ m, (extract d p.2 s).2 = none) →
      (data.map Prod.fst ++ m.map Prod.fst).Nodup →
      extractDataModelLoop d m s data
        = (data ++ m.map (fun p => (p.1, (extract d p.2 s).1)), none) := by
  intro m
  induction m with
  | nil => intro data _ _; simp [extractDataModelLoop]
  | cons p t ih =>
      intro data hok hnodup
      obtain ⟨k, v⟩ := p
      have hv : (extract d v s).2 = none := hok (k, v) (by simp)
      have hk : k ∉ data.map Prod.fst := by
        intro hmem
        have := List.nodup_append.mp hnodup
        exact this.2.2 hmem (by simp)
      have hnodup2 : ((data ++ [(k, (extract d v s).1)]).map Prod.fst
          ++ t.map Prod.fst).Nodup := by
        simpa using hnodup
      rw [extractDataModelLoop]
      simp only [hv, Model.set_of_not_mem data k _ hk]
      rw [ih (data ++ [(k, (extract d v s).1)]) (fun q hq => hok q (by simp [hq])) hnodup2]
      simp

/-- The loop stops at the first field whose extraction fails: the entries of the
fields before it and the entry of the failing field are in the map, and the error is
that field's. -/
theorem extractDataModelLoop_err {σ : Type} (d : Dom σ) (s : σ) (k : String) (v : Value σ)
    (e : GoError) (after : Model σ) (hfail : (extract d v s).2 = some e) :
    ∀ (before data : Model σ), (∀ p ∈ before, (extract d p.2 s).2 = none) →
      (data.map Prod.fst ++ (before ++ [(k, v)]).map Prod.fst).Nodup →
      extractDataModelLoop d (before ++ (k, v) :: after) s data
        = (data ++ before.map (fun p => (p.1, (extract d p.2 s).1))
            ++ [(k, (extract d v s).1)], some e) := by
  intro before
  induction before with
  | nil =>
      intro data _ hnodup
      have hk : k ∉ data.map Prod.fst := by
        intro hmem
        have := List.nodup_append.mp hnodup
        exact this.2.2 hmem (by simp)
      simp only [List.nil_append]
      rw [extractDataModelLoop]
      simp [hfail, Model.set_of_not_mem data k _ hk]
  | cons p t ih =>
      intro data hok hnodup
      obtain ⟨k0, v0⟩ := p
      have hv : (extract d v0 s).2 = none := hok (k0, v0) (by simp)
      have hk : k0 ∉ data.map Prod.fst := by
        intro hmem
        have := List.nodup_append.mp hnodup
        exact this.2.2 hmem (by simp)
      have hnodup2 : ((data ++ [(k0, (extract d v0 s).1)]).map Prod.fst
          ++ (t ++ [(k, v)]).map Prod.fst).Nodup := by
        simpa using hnodup
      simp only [List.cons_append]
      rw [extractDataModelLoop]
      simp only [hv, Model.set_of_not_mem data k0 _ hk]
      rw [ih (data ++ [(k0, (extract d v0 s).1)]) (fun q hq => hok q (by simp [hq])) hnodup2]
      simp

/-- The error of the loop is the error of the first failing field, whatever the keys. -/
theorem extractDataModelLoop_error {σ : Type} (d : Dom σ) (s : σ) (k : String) (v : Value σ)
    (e : GoError) (after : Model σ) (hfail : (extract d v s).2 = some e) :
    ∀ (before data : Model σ), (∀ p ∈ before, (extract d p.2 s).2 = none) →
      (extractDataModelLoop d (before ++ (k, v) :: after) s data).2 = some e := by
  intro before
  induction before with
  | nil =>
      intro data _
      simp only [List.nil_append]
      rw [extractDataModelLoop]
      simp [hfail]
  | cons p t ih =>
      intro data hok
      obtain ⟨k0, v0⟩ := p
      have hv : (extract d v0 s).2 = none := hok (k0, v0) (by simp)
      simp only [List.cons_append]
      rw [extractDataModelLoop]
      simp only [hv]
      exact ih _ (fun q hq => hok q (by simp [hq]))

/-- A loop that ends without error extracted every field without error. -/
theorem extractDataModelLoop_none {σ : Type} (d : Dom σ) (s : σ) :
    ∀ (m data : Model σ), (extractDataModelLoop d m s data).2 = none →
      ∀ p ∈ m, (extract d p.2 s).2 = none := by
  intro m
  induction m with
  | nil => intro data _ p hp; simp at hp
  | cons q t ih =>
      intro data h p hp
      obtain ⟨k, v⟩ := q
      rw [extractDataModelLoop] at h
      cases hv : (extract d v s).2 with
      | some e => simp [hv] at h
      | none =>
          simp only [hv] at h
          rcases List.mem_cons.mp hp with hpq | hpt
          · rw [hpq]; exact hv
          · exact ih _ h p hpt

/-! ## `extract` on a `Model` -/

/-- C14. For a `Model` `m` (distinct keys) whose fields all extract without error on
`s`, and for every order `visited` in which the fields are visited, `extract` returns,
without error, a mapping that has the keys of `m` and, at each key, the value that
`extract` returns for the sub-model `m` has at that key. -/
theorem extract_model_all_fields {σ : Type} (d : Dom σ) (m visited : Model σ) (s : σ)
    (hnodup : (m.map Prod.fst).Nodup) (horder : visited.Perm m)
    (hok : ∀ p ∈ m, (extract d p.2 s).2 = none) :
    ∃ data : Model σ, extract d (.model visited) s = (.model data, none) ∧
      (data.map Prod.fst).Perm (m.map Prod.fst) ∧
      ∀ key, Model.get data key
        = (Model.get m key).map (fun sub => (extract d sub s).1) := by
  have hnodup' : (visited.map Prod.fst).Nodup :=
    (horder.map Prod.fst).nodup_iff.mpr hnodup
  have hloop := extractDataModelLoop_ok d s visited []
    (fun p hp => hok p (horder.mem_iff.mp hp)) (by simpa using hnodup')
  refine ⟨visited.map (fun p => (p.1, (extract d p.2 s).1)), ?_, ?_, ?_⟩
  · rw [extract]
    simp [hloop]
  · have : (visited.map (fun p => (p.1, (extract d p.2 s).1))).map Prod.fst
        = visited.map Prod.fst := by
      simp [List.map_map, Function.comp_def]
    rw [this]
    exact horder.map Prod.fst
  · intro key
    rw [Model.get_map visited (fun sub => (extract d sub s).1) key,
      Model.get_perm m visited horder hnodup key]

/-- Witness of C14: `Model{"a": "text", "b": "id"}` on item 1, visited as b, a. -/
theorem extract_model_all_fields_witness :
    (([("a", .str "text"), ("b", .str "id")] : Model (List Nat)).map Prod.fst).Nodup ∧
      ([("b", .str "id"), ("a", .str "text")] : Model (List Nat)).Perm
        [("a", .str "text"), ("b", .str "id")] ∧
      (∀ p ∈ ([("a", .str "text"), ("b", .str "id")] : Model (List Nat)),
        (extract sampleDom p.2 [1]).2 = none) ∧
      ∃ data : Model (List Nat),
        extract sampleDom (.model [("b", .str "id"), ("a", .str "text")]) [1]
          = (.model data, none) ∧
        (data.map Prod.fst).Perm
          (([("a", .str "text"), ("b", .str "id")] : Model (List Nat)).map Prod.fst) ∧
        ∀ key, Model.get data key
          = (Model.get ([("a", .str "text"), ("b", .str "id")] : Model (List Nat)) key).map
              (fun sub => (extract sampleDom sub [1]).1) :=
  ⟨by decide, List.Perm.swap _ _ [], by decide,
    extract_model_all_fields sampleDom [("a", .str "text"), ("b", .str "id")]
      [("b", .str "id"), ("a", .str "text")] [1] (by decide) (List.Perm.swap _ _ [])
      (by decide)⟩

/-- C15. For a `Model` `m` (distinct keys) in which, on a match `n` that `Scrape` gets
to, the field `k` fails with `e` and every other field extracts without error, `Scrape`
returns `e`, and the sequence it returns is the one built from the matches before `n`:
nothing is stored for `n`. -/
theorem Scrape_field_error {σ : Type} (d : Dom σ) (iterator : String) (m : Model σ) (s : σ)
    (limit : Nat) (pre post : List σ) (n : σ) (k : String) (v : Value σ) (e : GoError)
    (hms : d.Each (d.Find s iterator) = pre ++ n :: post)
    (hnodup : (m.map Prod.fst).Nodup)
    (hpre : ∀ x ∈ pre, (extract d (.model m) x).2 = none)
    (hlim : limit = 0 ∨ pre.length < limit)
    (hmem : (k, v) ∈ m)
    (hfail : (extract d v n).2 = some e)
    (hothers : ∀ p ∈ m, p.1 ≠ k → (extract d p.2 n).2 = none) :
    (Scrape d iterator (.model m) s limit).2 = some e ∧
      (Scrape d iterator (.model m) s limit).1
        = (if pre.isEmpty then [Value.nil]
            else pre.map (fun x => (extract d (.model m) x).1)) := by
  obtain ⟨before, after, hm⟩ := List.append_of_mem hmem
  have hbefore : ∀ p ∈ before, (extract d p.2 n).2 = none := by
    intro p hp
    apply hothers p (by rw [hm]; simp [hp])
    intro hpk
    rw [hm] at hnodup
    simp only [List.map_append, List.map_cons] at hnodup
    have h1 := (List.nodup_append.mp hnodup).2.2
    exact h1 (List.mem_map_of_mem Prod.fst hp) (by rw [hpk]; simp)
  have hn : (extract d (.model m) n).2 = some e := by
    rw [extract, hm]
    exact extractDataModelLoop_error d n k v e after hfail before [] hbefore
  simp [Scrape,
    ScrapeWith_err d (extract d (.model m)) iterator s limit pre post n e hms hpre hn hlim,
    ScrapeState.afterAll]

/-- Witness of C15: `Model{"a": "text", "b": failsOnTwo}` over the three items. -/
theorem Scrape_field_error_witness :
    sampleDom.Each (sampleDom.Find [0] "li") = [[1]] ++ [2] :: [[3]] ∧
      (([("a", .str "text"), ("b", failsOnTwo)] : Model (List Nat)).map Prod.fst).Nodup ∧
      (∀ x ∈ ([[1]] : List (List Nat)),
        (extract sampleDom (.model [("a", .str "text"), ("b", failsOnTwo)]) x).2 = none) ∧
      ((0 : Nat) = 0 ∨ ([[1]] : List (List Nat)).length < 0) ∧
      (("b", failsOnTwo) ∈ ([("a", .str "text"), ("b", failsOnTwo)] : Model (List Nat))) ∧
      (extract sampleDom failsOnTwo [2]).2 = some ⟨"item 2 is broken"⟩ ∧
      (∀ p ∈ ([("a", .str "text"), ("b", failsOnTwo)] : Model (List Nat)),
        p.1 ≠ "b" → (extract sampleDom p.2 [2]).2 = none) ∧
      ((Scrape sampleDom "li" (.model [("a", .str "text"), ("b", failsOnTwo)]) [0] 0).2
          = some ⟨"item 2 is broken"⟩ ∧
        (Scrape sampleDom "li" (.model [("a", .str "text"), ("b", failsOnTwo)]) [0] 0).1
          = (if ([[1]] : List (List Nat)).isEmpty then [Value.nil]
              else ([[1]] : List (List Nat)).map (fun x =>
                (extract sampleDom (.model [("a", .str "text"), ("b", failsOnTwo)]) x).1))) :=
  ⟨by decide, by decide, by decide, by decide, by simp, by decide, by decide,
    Scrape_field_error sampleDom "li" [("a", .str "text"), ("b", failsOnTwo)] [0] 0
      [[1]] [[3]] [2] "b" failsOnTwo ⟨"item 2 is broken"⟩ (by decide) (by decide)
      (by decide) (by decide) (by simp) (by decide) (by decide)⟩

/-- C20 as stated fails. On item 1, `Model{"a": "text", "b": f}` visited as a, b, with
`f` failing, `extract` returns the error of `b` together with a mapping that holds the
value extracted for `a` (and nil at `b`). -/
theorem extract_model_error_returns_mapping :
    extract sampleDom (.model [("a", .str "text"), ("b", failsWith "b is broken")]) [1]
      = (.model [("a", .str "alpha"), ("b", .nil)], some ⟨"b is broken"⟩) := by
  rfl

/-- C20, amended. When a field of a `Model` (distinct keys) fails and the fields visited
before it extract without error, `extract` returns the error of that field together
with the mapping built so far: the values of the fields visited before the failing
one and, at the key of the failing field, the value returned with the error. The
fields after the failing one have no part in what is returned. -/
theorem extract_model_first_failure {σ : Type} (d : Dom σ) (before after : Model σ)
    (k : String) (v : Value σ) (s : σ) (e : GoError)
    (hnodup : ((before ++ (k, v) :: after).map Prod.fst).Nodup)
    (hbefore : ∀ p ∈ before, (extract d p.2 s).2 = none)
    (hfail : (extract d v s).2 = some e) :
    extract d (.model (before ++ (k, v) :: after)) s
      = (.model (before.map (fun p => (p.1, (extract d p.2 s).1))
          ++ [(k, (extract d v s).1)]), some e) := by
  have hnodup2 : ((([] : Model σ)).map Prod.fst
      ++ (before ++ [(k, v)]).map Prod.fst).Nodup := by
    have h : (before ++ (k, v) :: after) = (before ++ [(k, v)]) ++ after := by simp
    rw [h, List.map_append] at hnodup
    simpa using (List.nodup_append.mp hnodup).1
  rw [extract]
  simp [extractDataModelLoop_err d s k v e after hfail before [] hbefore hnodup2]

/-- Witness of the amended C20: `a` extracts, `b` fails, `c` is not reached. -/
theorem extract_model_first_failure_witness :
    ((([("a", .str "text")] : Model (List Nat))
        ++ ("b", failsWith "b is broken") :: [("c", failsWith "c is broken")]).map
          Prod.fst).Nodup ∧
      (∀ p ∈ ([("a", .str "text")] : Model (List Nat)),
        (extract sampleDom p.2 [1]).2 = none) ∧
      (extract sampleDom (failsWith "b is broken") [1]).2 = some ⟨"b is broken"⟩ ∧
      extract sampleDom
          (.model (([("a", .str "text")] : Model (List Nat))
            ++ ("b", failsWith "b is broken") :: [("c", failsWith "c is broken")])) [1]
        = (.model ((([("a", .str "text")] : Model (List Nat))).map
              (fun p => (p.1, (extract sampleDom p.2 [1]).1))
            ++ [("b", (extract sampleDom (failsWith "b is broken") [1]).1)]),
            some ⟨"b is broken"⟩) :=
  ⟨by decide, by decide, by decide,
    extract_model_first_failure sampleDom [("a", .str "text")]
      [("c", failsWith "c is broken")] "b" (failsWith "b is broken") [1]
      ⟨"b is broken"⟩ (by decide) (by decide) (by decide)⟩

/-! ## Two visiting orders -/

/-- `Value.Same` is symmetric. -/
theorem Value.Same.symm {σ : Type} {a b : Value σ} (h : Value.Same a b) : Value.Same b a := by
  induction h with
  | refl v => exact Value.Same.refl v
  | model m m' hm hm' hkeys _ ih =>
      exact Value.Same.model m' m hm' hm (fun key => (hkeys key).symm)
        (fun key v' v h' h => ih key v v' h h')
  | slice xs ys hlen _ ih =>
      exact Value.Same.slice ys xs hlen.symm (fun i y x hy hx => ih i x y hx hy)
  | retriever Attr Sel Method Iterator Data Data' DefaultValue _ ih =>
      exact Value.Same.retriever Attr Sel Method Iterator Data' Data DefaultValue ih

/-- Values that are the same are both the empty string or neither is. -/
theorem Value.Same.isEmptyString_eq {σ : Type} {a b : Value σ} (h : Value.Same a b) :
    a.isEmptyString = b.isEmptyString := by
  cases h <;> rfl

/-- A list extracts without error everywhere, or it has a first element on which
extraction fails. -/
theorem first_failure {σ : Type} (ex : σ → Res σ) :
    ∀ l : List σ, (∀ n ∈ l, (ex n).2 = none) ∨
      ∃ pre n post e, l = pre ++ n :: post ∧ (∀ m ∈ pre, (ex m).2 = none) ∧
        (ex n).2 = some e := by
  intro l
  induction l with
  | nil => left; simp
  | cons a t ih =>
      cases ha : (ex a).2 with
      | some e => right; exact ⟨[], a, t, e, by simp, by simp, ha⟩
      | none =>
          rcases ih with hall | ⟨pre, n, post, e, hl, hpre, hn⟩
          · left
            intro n hn
            rcases List.mem_cons.mp hn with h | h
            · rw [h]; exact ha
            · exact hall n h
          · right
            refine ⟨a :: pre, n, post, e, by simp [hl], ?_, hn⟩
            intro m hm
            rcases List.mem_cons.mp hm with h | h
            · rw [h]; exact ha
            · exact hpre m h

/-- A position inside the processed matches is a position of the matches that the limit
lets `Scrape` reach. -/
theorem processed_split {α : Type} (limit : Nat) (ms pre post : List α) (n : α)
    (h : processed limit ms = pre ++ n :: post) :
    (∃ post2, ms = pre ++ n :: post2) ∧ (limit = 0 ∨ pre.length < limit) := by
  unfold processed at h
  by_cases hl : limit = 0
  · simp only [hl, if_true] at h
    exact ⟨⟨post, h⟩, Or.inl hl⟩
  · simp only [hl, if_false] at h
    refine ⟨⟨post ++ ms.drop limit, ?_⟩, Or.inr ?_⟩
    · have := List.take_append_drop limit ms
      rw [h, List.append_assoc, List.cons_append] at this
      exact this.symm
    · have hlen := congrArg List.length h
      simp at hlen
      omega

/-- The two ways `Scrape` ends: every processed match extracted without error, or the
loop stopped at the first processed match on which extraction failed. -/
theorem ScrapeWith_cases {σ : Type} (d : Dom σ) (ex : σ → Res σ) (iterator : String) (s : σ)
    (limit : Nat) :
    ((∀ n ∈ processed limit (d.Each (d.Find s iterator)), (ex n).2 = none) ∧
        ScrapeWith d ex iterator s limit
          = ScrapeState.afterAll ex (processed limit (d.Each (d.Find s iterator)))) ∨
      ∃ pre n post e, d.Each (d.Find s iterator) = pre ++ n :: post ∧
        (∀ m ∈ pre, (ex m).2 = none) ∧ (ex n).2 = some e ∧
        (limit = 0 ∨ pre.length < limit) ∧
        ScrapeWith d ex iterator s limit
          = { ScrapeState.afterAll ex pre with
              c := pre.length + 1, theError := some e, evaluated := pre ++ [n] } := by
  rcases first_failure ex (processed limit (d.Each (d.Find s iterator))) with
    hall | ⟨pre, n, post, e, hl, hpre, hn⟩
  · left
    exact ⟨hall, ScrapeWith_ok d ex iterator s limit hall⟩
  · right
    obtain ⟨⟨post2, hms⟩, hlim⟩ := processed_split limit _ pre post n hl
    exact ⟨pre, n, post2, e, hms, hpre, hn, hlim,
      ScrapeWith_err d ex iterator s limit pre post2 n e hms hpre hn hlim⟩

/-- The sequences accumulated over the same matches by two extractions whose values are
the same on each match are the same. -/
theorem afterAll_same {σ : Type} (ex ex2 : σ → Res σ) (l : List σ)
    (h : ∀ n ∈ l, Value.Same (ex n).1 (ex2 n).1) :
    Value.Same (.slice (ScrapeState.afterAll ex l).result)
      (.slice (ScrapeState.afterAll ex2 l).result) := by
  cases l with
  | nil => exact Value.Same.refl _
  | cons a t =>
      simp only [ScrapeState.afterAll, List.isEmpty_cons, Bool.false_eq_true, if_false]
      refine Value.Same.slice _ _ (by simp) ?_
      intro i x y hx hy
      rw [List.getElem?_map] at hx hy
      cases hi : (a :: t)[i]? with
      | none => rw [hi] at hx; simp at hx
      | some n =>
          rw [hi] at hx hy
          simp only [Option.map_some', Option.some.injEq] at hx hy
          rw [← hx, ← hy]
          exact h n (List.getElem?_mem hi)

/-- When a scrape ends without error and the second extraction succeeds, with the same
value, wherever the first one succeeds, the second scrape ends without error and with
the same sequence. -/
theorem ScrapeWith_same_ok {σ : Type} (d : Dom σ) (ex ex2 : σ → Res σ) (iterator : String)
    (s : σ) (limit : Nat)
    (h : ∀ n, (ex n).2 = none → (ex2 n).2 = none ∧ Value.Same (ex n).1 (ex2 n).1)
    (hok : (ScrapeWith d ex iterator s limit).theError = none) :
    (ScrapeWith d ex2 iterator s limit).theError = none ∧
      Value.Same (.slice (ScrapeWith d ex iterator s limit).result)
        (.slice (ScrapeWith d ex2 iterator s limit).result) := by
  rcases ScrapeWith_cases d ex iterator s limit with
    ⟨hall, hst⟩ | ⟨pre, n, post, e, _, _, _, _, hst⟩
  · have hall2 : ∀ n ∈ processed limit (d.Each (d.Find s iterator)), (ex2 n).2 = none :=
      fun n hn => (h n (hall n hn)).1
    rw [hst, ScrapeWith_ok d ex2 iterator s limit hall2]
    exact ⟨rfl, afterAll_same ex ex2 _ (fun n hn => (h n (hall n hn)).2)⟩
  · rw [hst] at hok
    simp at hok

/-- The keys of the mapping built for the fields `m`. -/
theorem extracted_keys {σ : Type} (m : Model σ) (f : Value σ → Value σ) :
    (m.map (fun p => (p.1, f p.2))).map Prod.fst = m.map Prod.fst := by
  simp [List.map_map, Function.comp_def]

/-- The recursive-scrape path of `extractRetrieverModel`, in terms of the loop state. -/
theorem extractRetrieverModel_scrape_path {σ : Type} (d : Dom σ) (Sel Iterator : String)
    (Data DefaultValue : Value σ) (s : σ)
    (hc : Iterator ≠ EMPTYSTRING ∧ Data.isEmptyString = false) :
    extractRetrieverModel d ⟨EMPTYSTRING, Sel, .nil, ⟨Iterator, Data⟩, DefaultValue⟩ s
      = (.slice (ScrapeWith d (extract d Data) Iterator (subSelect d Sel s) 0).result,
          (ScrapeWith d (extract d Data) Iterator (subSelect d Sel s) 0).theError) := by
  simp only [extractRetrieverModel, subSelect]
  simp [hc.1, hc.2]

/-- Where `extract` succeeds on a model, it succeeds, with the same value, on the same
model visited in another order. -/
theorem extract_same {σ : Type} (d : Dom σ) {M M2 : Value σ} (h : Value.Same M M2) :
    ∀ s, (extract d M s).2 = none →
      (extract d M2 s).2 = none ∧ Value.Same (extract d M s).1 (extract d M2 s).1 := by
  induction h with
  | refl v => intro s hs; exact ⟨hs, Value.Same.refl _⟩
  | model m m2 hm hm2 hkeys _ ih =>
      intro s hs
      have hs1 : (extractDataModelLoop d m s []).2 = none := by
        rw [extract] at hs
        exact hs
      have hall := extractDataModelLoop_none d s m [] hs1
      have hall2 : ∀ p ∈ m2, (extract d p.2 s).2 = none := by
        intro p hp
        obtain ⟨k2, v2⟩ := p
        have hg2 : Model.get m2 k2 = some v2 := (Model.get_eq_some_iff m2 hm2 k2 v2).mpr hp
        have hsome : (Model.get m k2).isSome = true := by rw [hkeys, hg2]; rfl
        obtain ⟨v, hg⟩ := Option.isSome_iff_exists.mp hsome
        have hmem := (Model.get_eq_some_iff m hm k2 v).mp hg
        exact (ih k2 v v2 hg hg2 s (hall (k2, v) hmem)).1
      have e1 := extractDataModelLoop_ok d s m [] hall (by simpa using hm)
      have e2 := extractDataModelLoop_ok d s m2 [] hall2 (by simpa using hm2)
      rw [extract, extract, e1, e2]
      refine ⟨rfl, ?_⟩
      simp only [List.nil_append]
      refine Value.Same.model _ _ ?_ ?_ ?_ ?_
      · rw [extracted_keys m (fun v => (extract d v s).1)]; exact hm
      · rw [extracted_keys m2 (fun v => (extract d v s).1)]; exact hm2
      · intro key
        rw [Model.get_map m (fun v => (extract d v s).1) key,
          Model.get_map m2 (fun v => (extract d v s).1) key]
        simp [hkeys key]
      · intro key w w2 hw hw2
        rw [Model.get_map m (fun v => (extract d v s).1) key] at hw
        rw [Model.get_map m2 (fun v => (extract d v s).1) key] at hw2
        cases hg : Model.get m key with
        | none => rw [hg] at hw; simp at hw
        | some v =>
            cases hg2 : Model.get m2 key with
            | none => rw [hg2] at hw2; simp at hw2
            | some v2 =>
                rw [hg] at hw
                rw [hg2] at hw2
                simp only [Option.map_some', Option.some.injEq] at hw hw2
                rw [← hw, ← hw2]
                exact (ih key v v2 hg hg2 s
                  (hall (key, v) ((Model.get_eq_some_iff m hm key v).mp hg))).2
  | slice xs ys _ _ _ =>
      intro s hs
      simp [extract] at hs
  | retriever Attr Sel Method Iterator Data Data2 DefaultValue hD ih =>
      intro s hs
      rw [extract] at hs ⊢
      rw [extract]
      by_cases hattr : Attr = EMPTYSTRING
      · subst hattr
        cases Method with
        | nil =>
            by_cases hc : Iterator ≠ EMPTYSTRING ∧ Data.isEmptyString = false
            · have hc2 : Iterator ≠ EMPTYSTRING ∧ Data2.isEmptyString = false :=
                ⟨hc.1, by rw [← hD.isEmptyString_eq]; exact hc.2⟩
              have hnested := ScrapeWith_same_ok d (extract d Data) (extract d Data2) Iterator
                (subSelect d Sel s) 0 (fun n hn => ih n hn)
              rw [extractRetrieverModel_scrape_path d Sel Iterator Data DefaultValue s hc] at hs ⊢
              rw [extractRetrieverModel_scrape_path d Sel Iterator Data2 DefaultValue s hc2]
              exact hnested hs
            · have hc2 : ¬ (Iterator ≠ EMPTYSTRING ∧ Data2.isEmptyString = false) := by
                rw [← hD.isEmptyString_eq]; exact hc
              simp only [extractRetrieverModel] at hs
              simp [hc] at hs
        | str m => exact ⟨by simpa [extractRetrieverModel] using hs,
            by simp only [extractRetrieverModel]; exact Value.Same.refl _⟩
        | func v e => exact ⟨by simpa [extractRetrieverModel] using hs,
            by simp only [extractRetrieverModel]; exact Value.Same.refl _⟩
        | retriever r => simp [extractRetrieverModel] at hs
        | model m => simp [extractRetrieverModel] at hs
        | slice xs => simp [extractRetrieverModel] at hs
        | other x => simp [extractRetrieverModel] at hs
      · have heq : extractRetrieverModel d
            ⟨Attr, Sel, Method, ⟨Iterator, Data2⟩, DefaultValue⟩ s
            = extractRetrieverModel d ⟨Attr, Sel, Method, ⟨Iterator, Data⟩, DefaultValue⟩ s := by
          simp [extractRetrieverModel, hattr]
        rw [heq]
        exact ⟨hs, Value.Same.refl _⟩

/-- A mapping and the same mapping with its entries listed in another order are the
same value. -/
theorem Value.Same.of_perm {σ : Type} (m m2 : Model σ) (hperm : m2.Perm m)
    (hnodup : (m.map Prod.fst).Nodup) : Value.Same (.model m) (.model m2) := by
  have hnodup2 : (m2.map Prod.fst).Nodup := (hperm.map Prod.fst).nodup_iff.mpr hnodup
  refine Value.Same.model m m2 hnodup hnodup2 ?_ ?_
  · intro key
    rw [Model.get_perm m m2 hperm hnodup key]
  · intro key v v2 hv hv2
    rw [Model.get_perm m m2 hperm hnodup key, hv] at hv2
    cases hv2
    exact Value.Same.refl v

/-- C19 as stated fails. `Model{"a": f, "b": g}`, with `f` and `g` failing with
different errors, is visited as a, b in one run and as b, a in another: the first run
returns the error of `a`, the second run the error of `b`. -/
theorem Scrape_error_depends_on_visiting_order :
    ([("b", failsWith "b is broken"), ("a", failsWith "a is broken")] : Model (List Nat)).Perm
        [("a", failsWith "a is broken"), ("b", failsWith "b is broken")] ∧
      (Scrape sampleDom "li"
          (.model [("a", failsWith "a is broken"), ("b", failsWith "b is broken")]) [0] 0).2
        = some ⟨"a is broken"⟩ ∧
      (Scrape sampleDom "li"
          (.model [("b", failsWith "b is broken"), ("a", failsWith "a is broken")]) [0] 0).2
        = some ⟨"b is broken"⟩ ∧
      (Scrape sampleDom "li"
          (.model [("a", failsWith "a is broken"), ("b", failsWith "b is broken")]) [0] 0).2
        ≠ (Scrape sampleDom "li"
          (.model [("b", failsWith "b is broken"), ("a", failsWith "a is broken")]) [0] 0).2 := by
  refine ⟨List.Perm.swap _ _ [], by decide, by decide, by decide⟩

/-- C19, amended. For every iterator, root and limit, two runs of `Scrape` on the same
model that visit the fields of its `Model`s in different orders return the same
sequence (same length, same order, equal values, mappings compared key by key), and
one returns an error exactly when the other does. (With one visiting order, `Scrape` is
a function of its arguments.) -/
theorem Scrape_same_up_to_error {σ : Type} (d : Dom σ) (iterator : String)
    (M M2 : Value σ) (s : σ) (limit : Nat) (h : Value.Same M M2) :
    Value.Same (.slice (Scrape d iterator M s limit).1)
        (.slice (Scrape d iterator M2 s limit).1) ∧
      ((Scrape d iterator M s limit).2 = none ↔ (Scrape d iterator M2 s limit).2 = none) := by
  simp only [Scrape]
  rcases ScrapeWith_cases d (extract d M) iterator s limit with
    ⟨_, hst⟩ | ⟨pre, n, post, e, hms, hpre, hn, hlim, hst⟩
  · have hok : (ScrapeWith d (extract d M) iterator s limit).theError = none := by
      rw [hst]; rfl
    obtain ⟨hok2, hsame⟩ := ScrapeWith_same_ok d (extract d M) (extract d M2) iterator s limit
      (fun n hn => extract_same d h n hn) hok
    exact ⟨hsame, by simp [hok, hok2]⟩
  · have hpre2 : ∀ m ∈ pre, (extract d M2 m).2 = none :=
      fun m hm => (extract_same d h m (hpre m hm)).1
    cases hn2 : (extract d M2 n).2 with
    | none =>
        have := (extract_same d h.symm n hn2).1
        rw [hn] at this
        exact Option.noConfusion this
    | some e2 =>
        rw [hst, ScrapeWith_err d (extract d M2) iterator s limit pre post n e2 hms hpre2 hn2
          hlim]
        refine ⟨?_, by simp⟩
        exact afterAll_same (extract d M) (extract d M2) pre
          (fun m hm => (extract_same d h m (hpre m hm)).2)

/-- Witness of the amended C19: `Model{"a": "text", "b": "id"}` visited as a, b and as
b, a over the three items. -/
theorem Scrape_same_up_to_error_witness :
    Value.Same (Value.model [("a", .str "text"), ("b", .str "id")] : Value (List Nat))
        (.model [("b", .str "id"), ("a", .str "text")]) ∧
      (Value.Same
          (.slice (Scrape sampleDom "li" (.model [("a", .str "text"), ("b", .str "id")])
            [0] 0).1)
          (.slice (Scrape sampleDom "li" (.model [("b", .str "id"), ("a", .str "text")])
            [0] 0).1) ∧
        ((Scrape sampleDom "li" (.model [("a", .str "text"), ("b", .str "id")]) [0] 0).2
            = none ↔
          (Scrape sampleDom "li" (.model [("b", .str "id"), ("a", .str "text")]) [0] 0).2
            = none)) :=
  ⟨Value.Same.of_perm _ _ (List.Perm.swap _ _ []) (by decide),
    Scrape_same_up_to_error sampleDom "li" (.model [("a", .str "text"), ("b", .str "id")])
      (.model [("b", .str "id"), ("a", .str "text")]) [0] 0
      (Value.Same.of_perm _ _ (List.Perm.swap _ _ []) (by decide))⟩

/-! ## The length of the returned sequence -/

/-- C21. In every run the sequence `Scrape` returns has length `max 1 s`, `s` being the
number of selections on which `extract` was called and returned no error; it is never
empty; and when the iterator matches no node, `Scrape` returns the one-element sequence
holding nil, with a nil error. -/
theorem Scrape_result_never_empty {σ : Type} (d : Dom σ) (iterator : String)
    (model : Value σ) (s : σ) (limit : Nat) :
    (Scrape d iterator model s limit).1.length
        = max 1 ((Scrape.evaluated d iterator model s limit).countP
            (fun n => (extract d model n).2.isNone)) ∧
      (Scrape d iterator model s limit).1 ≠ [] ∧
      (d.Each (d.Find s iterator) = [] →
        Scrape d iterator model s limit = ([Value.nil], none)) := by
  have hcount : ∀ l : List σ, (∀ n ∈ l, (extract d model n).2 = none) →
      l.countP (fun n => (extract d model n).2.isNone) = l.length := by
    intro l hl
    rw [List.countP_eq_length]
    intro n hn
    simp [hl n hn]
  have hlen : ∀ l : List σ,
      (ScrapeState.afterAll (extract d model) l).result.length = max 1 l.length := by
    intro l
    cases l with
    | nil => simp [ScrapeState.afterAll]
    | cons a t => simp [ScrapeState.afterAll]
  have hmain : (Scrape d iterator model s limit).1.length
      = max 1 ((Scrape.evaluated d iterator model s limit).countP
          (fun n => (extract d model n).2.isNone)) := by
    simp only [Scrape, Scrape.evaluated]
    rcases ScrapeWith_cases d (extract d model) iterator s limit with
      ⟨hall, hst⟩ | ⟨pre, n, post, e, _, hpre, hn, _, hst⟩
    · rw [hst, hlen]
      simp only [ScrapeState.afterAll]
      rw [hcount _ hall]
    · rw [hst]
      simp only [List.countP_append, hcount pre hpre]
      rw [hlen]
      simp [hn]
  refine ⟨hmain, ?_, ?_⟩
  · intro hnil
    rw [hnil] at hmain
    simp at hmain
    omega
  · intro hms
    have hall : ∀ n ∈ processed limit (d.Each (d.Find s iterator)),
        (extract d model n).2 = none := by
      intro n hn
      rw [hms] at hn
      simp [processed] at hn
    simp [Scrape, ScrapeWith_ok d (extract d model) iterator s limit hall, hms, processed,
      ScrapeState.afterAll]

/-- Witness of C21: an iterator that matches nothing under the root. -/
theorem Scrape_result_never_empty_witness :
    sampleDom.Each (sampleDom.Find [0] "p") = [] ∧
      ((Scrape sampleDom "p" failsOnTwo [0] 2).1.length
          = max 1 ((Scrape.evaluated sampleDom "p" failsOnTwo [0] 2).countP
              (fun n => (extract sampleDom failsOnTwo n).2.isNone)) ∧
        (Scrape sampleDom "p" failsOnTwo [0] 2).1 ≠ [] ∧
        (sampleDom.Each (sampleDom.Find [0] "p") = [] →
          Scrape sampleDom "p" failsOnTwo [0] 2 = ([Value.nil], none))) :=
  ⟨by decide, Scrape_result_never_empty sampleDom "p" failsOnTwo [0] 2⟩

/-- C22. With `Attr` unset and `Method` a string other than "text" and "html",
`extractRetrieverModel` fails with "Empty RetrieverModel encountered" on every
selection, whatever `Sel`, `Scrape` and `DefaultValue` hold: a recursive scrape that is
set as well is not run. -/
theorem extractRetrieverModel_other_string_method {σ : Type} (d : Dom σ) (Sel method : String)
    (sc : ScrapeObject (Value σ)) (DefaultValue : Value σ) (s : σ)
    (htext : method ≠ "text") (hhtml : method ≠ "html") :
    extractRetrieverModel d ⟨EMPTYSTRING, Sel, .str method, sc, DefaultValue⟩ s
      = (.nil, some ⟨"Empty RetrieverModel encountered"⟩) := by
  cases sc
  simp [extractRetrieverModel, htext, hhtml]

/-- Witness of C22: `Method: "outerHTML"` next to a recursive scrape that is set. -/
theorem extractRetrieverModel_other_string_method_witness :
    ("outerHTML" : String) ≠ "text" ∧ ("outerHTML" : String) ≠ "html" ∧
      extractRetrieverModel sampleDom
          ⟨EMPTYSTRING, "b", .str "outerHTML", ⟨"li", .str "text"⟩, .str "fallback"⟩ [0]
        = (.nil, some ⟨"Empty RetrieverModel encountered"⟩) :=
  ⟨by decide, by decide,
    extractRetrieverModel_other_string_method sampleDom "b" "outerHTML"
      ⟨"li", .str "text"⟩ (.str "fallback") [0] (by decide) (by decide)⟩

/-! ## Termination -/

/-- A field is no deeper than the deepest field. -/
theorem depth_le_fieldsDepth {σ : Type} (m : Model σ) :
    ∀ p ∈ m, Value.depth p.2 ≤ fieldsDepth m := by
  induction m with
  | nil => intro p hp; simp at hp
  | cons q t ih =>
      intro p hp
      obtain ⟨k, v⟩ := q
      rw [fieldsDepth]
      rcases List.mem_cons.mp hp with h | h
      · rw [h]; exact Nat.le_max_left _ _
      · exact Nat.le_trans (ih p h) (Nat.le_max_right _ _)

/-- When every call of `extract` returns, the loop of `Scrape` returns. -/
theorem EachWithBreakD_eq {σ : Type} (ex : σ → Res σ) (exD : σ → Option (Res σ))
    (limit : Nat) (h : ∀ n, exD n = some (ex n)) :
    ∀ (ms : List σ) (st : ScrapeState σ),
      EachWithBreakD (scrapeCallbackD exD limit) ms st
        = some (EachWithBreak (scrapeCallback ex limit) ms st) := by
  intro ms
  induction ms with
  | nil => intro st; rfl
  | cons n t ih =>
      intro st
      have hcb : scrapeCallbackD exD limit n st = some (scrapeCallback ex limit n st) := by
        simp only [scrapeCallbackD, h n]
        rfl
      simp only [EachWithBreakD, EachWithBreak, hcb]
      split
      · exact ih _
      · rfl

/-- When every call of `extract` returns, `Scrape` returns. -/
theorem ScrapeWithD_eq {σ : Type} (d : Dom σ) (ex : σ → Res σ) (exD : σ → Option (Res σ))
    (iterator : String) (s : σ) (limit : Nat) (h : ∀ n, exD n = some (ex n)) :
    ScrapeWithD d exD iterator s limit = some (ScrapeWith d ex iterator s limit) :=
  EachWithBreakD_eq ex exD limit h _ _

/-- When the call of `extract` returns on every field, the loop of `extractDataModel`
returns. -/
theorem extractDataModelLoopD_eq {σ : Type} (d : Dom σ) (exD : Value σ → σ → Option (Res σ))
    (s : σ) :
    ∀ (m data : Model σ), (∀ p ∈ m, exD p.2 s = some (extract d p.2 s)) →
      extractDataModelLoopD exD m s data = some (extractDataModelLoop d m s data) := by
  intro m
  induction m with
  | nil => intro data _; simp [extractDataModelLoopD, extractDataModelLoop]
  | cons q t ih =>
      intro data h
      obtain ⟨k, v⟩ := q
      have hv : exD v s = some (extract d v s) := h (k, v) (by simp)
      rw [extractDataModelLoopD, extractDataModelLoop]
      simp only [hv]
      cases he : (extract d v s).2 with
      | some e => rfl
      | none => exact ih _ (fun p hp => h p (by simp [hp]))

/-- With more fuel than the model is deep, the bounded `extract` returns what `extract`
returns. -/
theorem extractD_eq {σ : Type} (d : Dom σ) :
    ∀ (fuel : Nat) (model : Value σ) (s : σ), Value.depth model < fuel →
      extractD d fuel model s = some (extract d model s) := by
  intro fuel
  induction fuel with
  | zero => intro model s h; exact absurd h (Nat.not_lt_zero _)
  | succ f ih =>
      intro model s h
      cases model with
      | nil => simp [extractD, extract]
      | str m => simp [extractD, extract]
      | func v e => simp [extractD, extract]
      | slice xs => simp [extractD, extract]
      | other x => simp [extractD, extract]
      | model m =>
          have hm : fieldsDepth m < f := by
            rw [Value.depth] at h
            omega
          have hfields : ∀ p ∈ m, extractD d f p.2 s = some (extract d p.2 s) :=
            fun p hp => ih p.2 s (Nat.lt_of_le_of_lt (depth_le_fieldsDepth m p hp) hm)
          rw [extractD, extract]
          simp only [extractDataModelLoopD_eq d (extractD d f) s m [] hfields]
      | retriever rm =>
          obtain ⟨Attr, Sel, Method, ⟨Iterator, Data⟩, DefaultValue⟩ := rm
          have hD : Value.depth Data < f := by
            rw [Value.depth] at h
            omega
          have hnested : ∀ s2, ScrapeWithD d (extractD d f Data) Iterator s2 0
              = some (ScrapeWith d (extract d Data) Iterator s2 0) :=
            fun s2 => ScrapeWithD_eq d (extract d Data) (extractD d f Data) Iterator s2 0
              (fun n => ih Data n hD)
          rw [extractD, extract]
          simp only [extractRetrieverModelD, extractRetrieverModel, hnested]
          split
          · split <;> rfl
          · split
            · split <;> rfl
            · split
              · rfl
              · split <;> rfl
            · rfl
            · rfl

/-- C23. `extract` and `Scrape` terminate, and the depth of the recursion is bounded
by the nesting depth of the model: run with a bound `fuel` on the number of nested
calls of `extract`, which is the only thing their recursion then descends on, they
return, for every `fuel` greater than the nesting depth of the model, the result of
`extract` and of `Scrape`, on every selection and for every list of matches. -/
theorem Scrape_extract_terminate {σ : Type} (d : Dom σ) (fuel : Nat) (iterator : String)
    (model : Value σ) (s : σ) (limit : Nat) (hfuel : Value.depth model < fuel) :
    extractD d fuel model s = some (extract d model s) ∧
      ScrapeD d fuel iterator model s limit = some (Scrape d iterator model s limit) := by
  refine ⟨extractD_eq d fuel model s hfuel, ?_⟩
  simp only [ScrapeD, Scrape]
  rw [ScrapeWithD_eq d (extract d model) (extractD d fuel model) iterator s limit
    (fun n => extractD_eq d fuel model n hfuel)]

/-- Witness of C23: `{Scrape: {Iterator: "li", Data: Model{"a": "text"}}}`, of nesting
depth 2, with fuel 3. -/
theorem Scrape_extract_terminate_witness :
    Value.depth (Value.retriever ⟨"", "", .nil, ⟨"li", .model [("a", .str "text")]⟩, .nil⟩ :
        Value (List Nat)) < 3 ∧
      (extractD sampleDom 3
            (.retriever ⟨"", "", .nil, ⟨"li", .model [("a", .str "text")]⟩, .nil⟩) [0]
          = some (extract sampleDom
            (.retriever ⟨"", "", .nil, ⟨"li", .model [("a", .str "text")]⟩, .nil⟩) [0]) ∧
        ScrapeD sampleDom 3 "li"
            (.retriever ⟨"", "", .nil, ⟨"li", .model [("a", .str "text")]⟩, .nil⟩) [0] 0
          = some (Scrape sampleDom "li"
            (.retriever ⟨"", "", .nil, ⟨"li", .model [("a", .str "text")]⟩, .nil⟩) [0] 0)) :=
  ⟨by decide,
    Scrape_extract_terminate sampleDom 3 "li"
      (.retriever ⟨"", "", .nil, ⟨"li", .model [("a", .str "text")]⟩, .nil⟩) [0] 0
      (by decide)⟩

end Dtoo
